import Mathlib

/-!
Shallow embedding of the EtherDFS server (`ethersrv`) core: `ethersrv.c`,
`fs.c` of the megapearl/etherdfs repository.

Conventions of the embedding:

* C byte buffers (Ethernet frames, file data) are `List Nat`, each element a
  byte value `< 256`.  Reads through `getB` return `0` past the end, matching
  the fact that the C code never reads past the lengths it was handed (where
  it does, the spot is commented).
* C strings are `List Char` holding the NUL-free character content; reading
  at or past the end of the list through `getC` yields the terminator
  `nulc`, exactly as reading the `'\0'` terminator of the C string.
* Host-system effects (`stat`, `readdir`, `statvfs`, file contents, syscall
  success) are supplied by an oracle structure `FsEnv`; mutating syscalls the
  server issues are recorded as an explicit `HostAct` trace.
* The handle table `fsdb` (fs.c:60) is a state `FsDb` mapping slot indices to
  optional slots; `time2dos`/`localtime` is summarized by the oracle's
  per-path DOS timestamp since wall-clock conversion is not embeddable.
-/

/-! ## Byte-buffer primitives -/

/-- Read byte `i` of buffer `l` (0 past the end). -/
def getB (l : List Nat) (i : Nat) : Nat := l.getD i 0

/-- Write the values `vs` into `l` starting at index `i` (writes past the end
of `l` are dropped; the C counterpart is a `memcpy` into a larger buffer). -/
def setSeq {α : Type} : List α → Nat → List α → List α
  | l, _, [] => l
  | l, i, v :: vs => setSeq (l.set i v) (i + 1) vs

/-- Little-endian 16-bit load at byte offset `i` (C `le16toh` of a 16-bit load). -/
def le16 (l : List Nat) (i : Nat) : Nat := getB l i + 256 * getB l (i + 1)

/-- Little-endian 32-bit load at byte offset `i`. -/
def le32 (l : List Nat) (i : Nat) : Nat :=
  getB l i + 256 * getB l (i + 1) + 65536 * getB l (i + 2) + 16777216 * getB l (i + 3)

/-- The two little-endian bytes of a 16-bit value. -/
def le16Bytes (v : Nat) : List Nat := [v &&& 255, (v >>> 8) &&& 255]

/-- The four little-endian bytes of a 32-bit value. -/
def le32Bytes (v : Nat) : List Nat :=
  [v &&& 255, (v >>> 8) &&& 255, (v >>> 16) &&& 255, (v >>> 24) &&& 255]

/-! ## C-string primitives -/

/-- The NUL character, i.e. the C string terminator. -/
def nulc : Char := Char.ofNat 0

/-- Read character `i` of string `s`; at or past the end this is the
terminator `nulc`. -/
def getC (s : List Char) (i : Nat) : Char := s.getD i nulc

/-- A byte list reinterpreted as C characters (cast `(char *)buff`). -/
def bytesToChars (l : List Nat) : List Char := l.map Char.ofNat

/-- A character list as bytes. -/
def charsToBytes (s : List Char) : List Nat := s.map Char.toNat

/-- The C-string content of a character buffer: everything before the first
embedded NUL. -/
def takeCStr (s : List Char) : List Char := s.takeWhile (fun c => c ≠ nulc)

/-- fs.c:128 `upchar`: upper-case a single character. -/
def upchar (c : Char) : Char :=
  if 'a' ≤ c ∧ c ≤ 'z' then Char.ofNat (c.toNat - 32) else c

/-- C `tolower` in the POSIX locale, as used by ethersrv.c:134 `lostring`. -/
def lowchar (c : Char) : Char :=
  if 'A' ≤ c ∧ c ≤ 'Z' then Char.ofNat (c.toNat + 32) else c

/-- ethersrv.c:134 `lostring` with `n = -1`: lower-case a whole string. -/
def lostring (s : List Char) : List Char := s.map lowchar

/-- ethersrv.c:205 `charreplace`: replace every `rep` by `repby`. -/
def charreplace (s : List Char) (rep repby : Char) : List Char :=
  s.map (fun c => if c = rep then repby else c)

/-! ## fs.c:134 `filename2fcb`

The function is translated loop by loop.  `d` is the 11-byte FCB block being
filled in place; `i` indexes `d`, `j` indexes the source string `s`. -/

/-- Loop fs.c:141 — copy the leading `'.'` run (at most 8 chars) of `s`
into `d`; returns the updated block and the index `i` after the run.  The
loop runs at most 8 iterations, which the structural `fuel` bounds. -/
def f2fDotsGo (s : List Char) : List Char → Nat → Nat → List Char × Nat
  | d, i, 0 => (d, i)
  | d, i, fuel + 1 =>
    if i < 8 then
      if getC s i = '.' then f2fDotsGo s (d.set i '.') (i + 1) fuel else (d, i)
    else (d, i)

def f2fDots (d s : List Char) (i : Nat) : List Char × Nat := f2fDotsGo s d i 8

/-- Loop fs.c:151 — the index of the first non-`' '` character at or
after `j` (the C `while (s[j] == ' ') j++`); the run cannot pass the
terminator, which the structural `fuel` bounds. -/
def skipspGo (s : List Char) : Nat → Nat → Nat
  | j, 0 => j
  | j, fuel + 1 => if getC s j = ' ' then skipspGo s (j + 1) fuel else j

def skipsp (s : List Char) (j : Nat) : Nat := skipspGo s j (s.length + 1 - j)

/-- Loop fs.c:149 — copy up to 8 name characters into `d[i..]`, skipping
space runs and upper-casing, until `s[j]` is `'.'` or the terminator.
Returns the block and the final `i` (which the C code then uses as `s += i`). -/
def f2fNameGo (s : List Char) : List Char → Nat → Nat → Nat → List Char × Nat
  | d, i, _, 0 => (d, i)
  | d, i, j, fuel + 1 =>
    if i < 8 then
      if getC s j = '.' ∨ getC s j = nulc then (d, i)
      else
        let j2 := skipsp s j
        f2fNameGo s (d.set i (upchar (getC s j2))) (i + 1) (j2 + 1) fuel
    else (d, i)

def f2fName (d s : List Char) (i j : Nat) : List Char × Nat := f2fNameGo s d i j 8

/-- Loop fs.c:160 — the index of the first `'.'` or terminator at or after
`p` (the scan cannot pass the terminator, which the structural `fuel`
bounds). -/
def scanDotGo (s : List Char) : Nat → Nat → Nat
  | p, 0 => p
  | p, fuel + 1 =>
    if getC s p = '.' ∨ getC s p = nulc then p else scanDotGo s (p + 1) fuel

def scanDot (s : List Char) (p : Nat) : Nat := scanDotGo s p (s.length + 1 - p)

/-- Loop fs.c:165 — copy up to 3 extension characters starting at source
index `p`, stopping at `'.'`, terminator or `' '`; writes `d[8 + j]`. -/
def f2fExtGo (s : List Char) (p : Nat) : List Char → Nat → Nat → List Char
  | d, _, 0 => d
  | d, j, fuel + 1 =>
    if j < 3 then
      if getC s (p + j) = '.' ∨ getC s (p + j) = nulc ∨ getC s (p + j) = ' ' then d
      else f2fExtGo s p (d.set (8 + j) (upchar (getC s (p + j)))) (j + 1) fuel
    else d

def f2fExt (d s : List Char) (p j : Nat) : List Char := f2fExtGo s p d j 3

/-- fs.c:134 `filename2fcb`: translate a filename into an 11-byte FCB block. -/
def filename2fcb (s : List Char) : List Char :=
  let d0 := List.replicate 11 ' '
  let r1 := f2fDots d0 s 0
  let r2 := f2fName r1.1 s r1.2 r1.2
  let p := scanDot s r2.2
  if getC s p = nulc then r2.1 else f2fExt r2.1 s (p + 1) 0

/-- fs.c:194 `matchfile2mask`: match an 11-byte FCB name against an 11-byte
FCB mask, case-insensitively, `'?'` in the mask matching anything; returns
`0` on match and `-1` otherwise, like the C function. -/
def matchfile2mask (msk fil : List Char) : Int :=
  if (List.range 11).all
      (fun i => upchar (getC fil i) = upchar (getC msk i) ∨ getC msk i = '?')
  then 0 else -1

/-! ## Host-system model

`fs.h` is not part of the sources; the record below is
modelled from the spec: `struct fileprops` (declared in the missing `fs.h`)
holds the 11-byte FCB name, the DOS attribute byte, the 32-bit size and the
32-bit DOS packed timestamp (spec section 3, "FileProps"). -/

structure FileProps where
  fcbname : List Char
  fattr : Nat
  fsize : Nat
  ftime : Nat
deriving DecidableEq

/-- A `calloc`/`memset`-zeroed `struct fileprops`. -/
def zeroProps : FileProps := ⟨List.replicate 11 nulc, 0, 0, 0⟩

instance : Inhabited FileProps := ⟨zeroProps⟩

/-- The result of `stat()` on a host path, as far as the server reads it:
directory bit, byte size, and the DOS packed form of `st_mtime` (the
`localtime`-based conversion `time2dos`, fs.c:173, is summarized by this
oracle-provided field since wall-clock conversion is outside the embedding). -/
structure CStat where
  isDir : Bool
  size : Nat
  dosTime : Nat

/-- One `readdir` entry: name and whether `d_type == DT_DIR`. -/
structure DirEnt where
  dname : List Char
  isDirE : Bool

/-- Oracle for every host-system call the server makes.  Success flags model
the return codes of the corresponding syscalls; `none` models failure. -/
structure FsEnv where
  statOf : List Char → Option CStat
  fatAttrOf : List Char → Option Nat
  openROk : List Char → Bool
  listDir : List Char → Option (List DirEnt)
  contentsOf : List Char → Option (List Nat)
  rwOpenOk : List Char → Bool
  fwriteCount : List Char → Nat → Nat → Nat
  mkdirOk : List Char → Bool
  rmdirOk : List Char → Bool
  chdirOk : List Char → Bool
  unlinkOk : List Char → Bool
  renameOk : List Char → List Char → Bool
  setattrOk : List Char → Nat → Bool
  createOk : List Char → Bool
  statAfterCreate : List Char → Option CStat
  statvfsOf : List Char → Option (Nat × Nat × Nat × Nat)
  now : Nat

/-- A mutating host call issued by the server (arguments as passed). -/
inductive HostAct where
  | unlinkA (p : List Char)
  | truncateA (p : List Char) (len : Nat)
  | fwriteA (p : List Char) (off : Nat) (data : List Nat)
  | mkdirA (p : List Char)
  | rmdirA (p : List Char)
  | chdirA (p : List Char)
  | renameA (p q : List Char)
  | setattrA (p : List Char) (attr : Nat)
  | createA (p : List Char)
deriving DecidableEq

/-- One slot of the handle table `fsdb` (fs.c:60): interned path, LRU
timestamp, and the optional cached directory listing. -/
structure Slot where
  sname : List Char
  lastused : Nat
  dirlist : Option (List FileProps)

/-- The handle table `fsdb` (fs.c:60): 65536 slots, modeled as a function
from slot index to optional slot (`none` = `name == NULL`, i.e. free). -/
structure FsDb where
  slots : Nat → Option Slot

/-- fs.c:123 `sstoitem`: the path stored at slot `ss`, or `none` (NULL). -/
def sstoitem (st : FsDb) (ss : Nat) : Option (List Char) :=
  (st.slots ss).map (fun s => s.sname)

/-- fs.c:215 (inside `getitemattr`): the part of `i` after the last `'/'` or
`'\'` that is followed by at least one more character. -/
def cBasenameGo (cur acc : List Char) : List Char :=
  match cur with
  | [] => acc
  | c :: rest => cBasenameGo rest (if (c = '/' ∨ c = '\\') ∧ rest ≠ [] then rest else acc)

def cBasename (s : List Char) : List Char := cBasenameGo s s

/-- fs.c:204 `getitemattr`: DOS attribute byte of host path `i` (0xFF when
`stat` fails), filling the caller's `fileprops` buffer `buf` when
`wantProps` is set (the C caller passes `NULL` otherwise).  The Linux branch
is embedded: on a FAT drive the attribute comes from the `FAT_IOCTL` oracle,
`open` failure yields 0xFF, `ioctl` failure yields 0.  The `stat` oracle is
passed explicitly so that `createfile`'s post-creation `stat` (fs.c:383) can
observe the file it just created; every other call site passes `env.statOf`. -/
def getitemattr (env : FsEnv) (statF : List Char → Option CStat) (i : List Char)
    (buf : FileProps) (wantProps fatflag : Bool) :
    Nat × FileProps :=
  match statF i with
  | none => (0xff, buf)
  | some stt =>
    let fp := if wantProps then ⟨filename2fcb (cBasename i), 0, 0, stt.dosTime⟩ else buf
    if stt.isDir then
      (16, if wantProps then ⟨fp.fcbname, 16, fp.fsize, fp.ftime⟩ else buf)
    else
      let fp2 := if wantProps then ⟨fp.fcbname, fp.fattr, stt.size, fp.ftime⟩ else buf
      if fatflag = false then (0x20, fp2)
      else if env.openROk i = false then (0xff, fp2)
      else
        match env.fatAttrOf i with
        | none => (0, fp2)
        | some a => (a, if wantProps then ⟨fp2.fcbname, a, fp2.fsize, fp2.ftime⟩ else buf)

/-- fs.c:263 `setitemattr` (outcome oracle; the syscall itself is recorded
as a `HostAct` by the dispatcher). -/
def setitemattr (env : FsEnv) (i : List Char) (fattr : Nat) : Int :=
  if env.setattrOk i fattr then 0 else -1

/-- fs.c:283 `gendirlist`: enumerate directory `name` into a list of
`fileprops` (`none` when `opendir` fails).  Entries whose full path would
overflow the 1024-byte buffer keep the `calloc`-zeroed props, exactly as in
the C (fs.c:310). -/
def gendirlist (env : FsEnv) (name : List Char) (fatflag : Bool) :
    Option (List FileProps) :=
  (env.listDir name).map (fun es =>
    es.map (fun e =>
      if name.length + 1 + e.dname.length < 1023 then
        (getitemattr env env.statOf (name ++ '/' :: e.dname) zeroProps true fatflag).2
      else zeroProps))

/-- The attribute filter of fs.c:349-354 inside `findfile`: a candidate with
attribute byte `fattr` passes the requested-attribute test `attr`. -/
def findfileAttrOk (attr fattr : Nat) : Bool :=
  if attr = 8 then fattr &&& 8 ≠ 0
  else (attr ||| (fattr &&& 0x16)) = attr

/-- The candidate loop of fs.c:341 `findfile`: walk the cached listing with
1-based counter `n`, skipping entries up to the cursor `nth`, dot-entries in
a root directory, mask mismatches and attribute-filter failures. -/
def findfileLoop (tmpl : List Char) (attr nth : Nat) (isrootF : Bool)
    (l : List FileProps) (n : Nat) : Option (FileProps × Nat) :=
  match l with
  | [] => none
  | fp :: rest =>
    let n' := n + 1
    if n' ≤ nth then findfileLoop tmpl attr nth isrootF rest n'
    else if getC fp.fcbname 0 = '.' ∧ isrootF then findfileLoop tmpl attr nth isrootF rest n'
    else if matchfile2mask tmpl fp.fcbname ≠ 0 then findfileLoop tmpl attr nth isrootF rest n'
    else if findfileAttrOk attr fp.fattr = false then findfileLoop tmpl attr nth isrootF rest n'
    else some (fp, n')

/-- Result of `findfile`: `crash` models the NULL dereference that happens
when the C regenerates the listing of a slot whose `name` is NULL
(`opendir(NULL)`, via fs.c:333-334 and fs.c:294). -/
inductive FfRes where
  | crash
  | res (r : Option (FileProps × Nat)) (st : FsDb)

/-- fs.c:329 `findfile`: search slot `dss` for the `nth`-next entry matching
the FCB template and attribute filter; regenerates the cached listing when
the cursor is 0 or no listing is cached.  The found entry is copied out and
the cursor updated, as in the C (the C `memcpy` at fs.c:360 over-copies
`sizeof(struct sdirlist)` bytes; only the `fileprops` part is meaningful). -/
def findfile (env : FsEnv) (st : FsDb) (dss : Nat) (tmpl : List Char)
    (attr nth : Nat) (isrootF isfatF : Bool) : FfRes :=
  match st.slots dss with
  | none => .crash
  | some slot =>
    if nth = 0 ∨ slot.dirlist = none then
      match gendirlist env slot.sname isfatF with
      | none =>
        .res none ⟨fun j => if j = dss then some ⟨slot.sname, slot.lastused, none⟩
                            else st.slots j⟩
      | some lst =>
        .res (findfileLoop tmpl attr nth isrootF lst 0)
          ⟨fun j => if j = dss then some ⟨slot.sname, slot.lastused, some lst⟩
                    else st.slots j⟩
    else
      .res (findfileLoop tmpl attr nth isrootF (slot.dirlist.getD []) 0) st

/-! ## fs.c: handle-table intern (`getitemss`) -/

/-- The `lastused` field the C reads from slot `i` (`memset`-cleared and
never-used slots read 0). -/
def slotLastused (st : FsDb) (i : Nat) : Nat :=
  match st.slots i with
  | none => 0
  | some s => s.lastused

/-- Accumulator of the scan loop fs.c:84: early-return flag, table state
(the loop sweeps stale slots in place), first free slot seen, oldest slot. -/
structure GiAcc where
  found : Option Nat
  st : FsDb
  firstfree : Nat
  oldest : Nat

/-- One iteration `i` of the scan loop fs.c:84-102: return a name match
(stamping `lastused`), sweep a slot idle for more than 3600 s, and track the
first free and the least-recently-used slot. -/
def getitemssStep (f : List Char) (now : Nat) (acc : GiAcc) (i : Nat) : GiAcc :=
  match acc.found with
  | some _ => acc
  | none =>
    match acc.st.slots i with
    | some s =>
      if s.sname = f then
        ⟨some i,
         ⟨fun j => if j = i then some ⟨s.sname, now, s.dirlist⟩ else acc.st.slots j⟩,
         acc.firstfree, acc.oldest⟩
      else
        let st1 : FsDb :=
          if now - s.lastused > 3600 then ⟨fun j => if j = i then none else acc.st.slots j⟩
          else acc.st
        if acc.firstfree = 0xffff ∧ (st1.slots i).isNone then ⟨none, st1, i, acc.oldest⟩
        else if slotLastused st1 acc.oldest > slotLastused st1 i then
          ⟨none, st1, acc.firstfree, i⟩
        else ⟨none, st1, acc.firstfree, acc.oldest⟩
    | none =>
      if acc.firstfree = 0xffff then ⟨none, acc.st, i, acc.oldest⟩
      else if slotLastused acc.st acc.oldest > slotLastused acc.st i then
        ⟨none, acc.st, acc.firstfree, i⟩
      else ⟨none, acc.st, acc.firstfree, acc.oldest⟩

/-- fs.c:79 `getitemss`: intern host path `f` in the 65536-slot table (the
scan covers slots 0..65534, as in `i < 0xffffu`); an existing slot is
returned and touched, otherwise the first free slot — or, with a full
table, the least recently used one — is rebound to `f`.  `strdup` is assumed
to succeed, so the out-of-memory 0xFFFF return (fs.c:115) is unreached. -/
def getitemss (env : FsEnv) (st : FsDb) (f : List Char) : Nat × FsDb :=
  let acc := (List.range 65535).foldl (getitemssStep f env.now) ⟨none, st, 0xffff, 0⟩
  match acc.found with
  | some i => (i, acc.st)
  | none =>
    let ff := if acc.firstfree = 0xffff then acc.oldest else acc.firstfree
    (ff, ⟨fun j => if j = ff then some ⟨f, env.now, none⟩ else acc.st.slots j⟩)

/-! ## fs.c: file and directory operations -/

/-- fs.c:368 `createfile`: create or truncate `fn` inside directory `d`,
set its attributes when on a FAT drive (the `setitemattr` result is
discarded, fs.c:378), then collect the resulting `fileprops`. -/
def createfile (env : FsEnv) (d fn : List Char) (attr : Nat) (fatflag : Bool) :
    Option FileProps × List HostAct :=
  let fullpath := d ++ '/' :: fn
  if env.createOk fullpath = false then (none, [.createA fullpath])
  else
    (some (getitemattr env env.statAfterCreate fullpath zeroProps true fatflag).2,
     .createA fullpath ::
       (if fatflag then [.setattrA fullpath attr] else []))

/-- fs.c:389 `diskinfo`: total and free bytes of the filesystem holding
`path`; a `statvfs` failure returns 0 and leaves the caller's `freespace`
at its initialized 0 (ethersrv.c:286). -/
def diskinfo (env : FsEnv) (path : List Char) : Nat × Nat :=
  match env.statvfsOf path with
  | none => (0, 0)
  | some r => (r.1 * r.2.1, r.2.2.1 * r.2.2.2)

/-- fs.c:401 `makedir` (the directory is created with mode 0, a quirk the
spec documents). -/
def makedir (env : FsEnv) (d : List Char) : Int := if env.mkdirOk d then 0 else -1

/-- fs.c:406 `remdir`. -/
def remdir (env : FsEnv) (d : List Char) : Int := if env.rmdirOk d then 0 else -1

/-- fs.c:411 `changedir`. -/
def changedir (env : FsEnv) (d : List Char) : Int := if env.chdirOk d then 0 else -1

/-- fs.c:513 `renfile`. -/
def renfile (env : FsEnv) (fn1 fn2 : List Char) : Int :=
  if env.renameOk fn1 fn2 then 0 else -1

/-- fs.c:416 `readfile`: read `len` bytes of file `fss` at `offset`;
`none` models the -1 return (stale handle or `fopen` failure; `fseek` on a
regular file succeeds).  The bytes returned are what `fread` stores into the
caller's buffer and its count is their length. -/
def readfile (env : FsEnv) (st : FsDb) (fss offset len : Nat) : Option (List Nat) :=
  match sstoitem st fss with
  | none => none
  | some fname =>
    match env.contentsOf fname with
    | none => none
    | some data => some ((data.drop offset).take len)

/-- fs.c:435 `writefile`: an empty write truncates (or extends) the file to
`offset`, ignoring the `truncate` result (fs.c:444), and reports 0 bytes
written; otherwise the data is written at `offset` and the `fwrite` count
reported.  `none` models the -1 return. -/
def writefile (env : FsEnv) (st : FsDb) (fss offset : Nat) (data : List Nat) :
    Option Nat × List HostAct :=
  match sstoitem st fss with
  | none => (none, [])
  | some fname =>
    if data.length = 0 then (some 0, [.truncateA fname offset])
    else if env.rwOpenOk fname = false then (none, [])
    else
      (some (min (env.fwriteCount fname offset data.length) data.length),
       [.fwriteA fname offset data])

/-- fs.c:533 `getfopsize`: byte size of the file behind handle `fss`, or -1
for a stale handle or failed `stat` (a directory reports the zeroed size). -/
def getfopsize (env : FsEnv) (st : FsDb) (fss : Nat) : Int :=
  match sstoitem st fss with
  | none => -1
  | some fname =>
    let r := getitemattr env env.statOf fname zeroProps true false
    if r.1 = 0xff then -1 else (r.2.fsize : Int)

/-- fs.c:463 `delfiles`: delete everything matching `pattern`.  Without a
`'?'` the single file is unlinked (1 on success, -1 on failure); with one,
every non-directory entry of the containing directory whose FCB name
matches the pattern's FCB mask is unlinked (unlink errors ignored) and 0 is
returned; -1 when the directory cannot be opened. -/
def delfiles (env : FsEnv) (pattern : List Char) : Int × List HostAct :=
  let ispattern := pattern.contains '?'
  let fileoffset := (List.range pattern.length).foldl
    (fun acc i => if getC pattern i = '/' then i else acc) 0
  if ispattern = false then
    if env.unlinkOk pattern then (1, [.unlinkA pattern]) else (-1, [.unlinkA pattern])
  else
    let dir := pattern.take fileoffset
    let fil := pattern.drop (fileoffset + 1)
    let filfcb := filename2fcb fil
    match env.listDir dir with
    | none => (-1, [])
    | some entries =>
      (0, entries.filterMap (fun e =>
        if e.isDirE then none
        else if matchfile2mask filfcb (filename2fcb e.dname) = 0 then
          some (.unlinkA (dir ++ '/' :: e.dname))
        else none))

/-! ## fs.c:543 `shorttolong` (DOS 8.3 to host path resolution) -/

/-- The nonempty `'/'`-separated segments of a string, as produced by the
`strtok(src, "/")` loop of fs.c:576-581 (each step consumes at least one
character, which the structural `fuel` bounds). -/
def splitSlashGo : Nat → List Char → List (List Char)
  | 0, _ => []
  | _ + 1, [] => []
  | fuel + 1, c :: rest =>
    if c = '/' then splitSlashGo fuel rest
    else (c :: rest.takeWhile (fun x => x ≠ '/')) ::
      splitSlashGo fuel (rest.dropWhile (fun x => x ≠ '/'))

def splitSlash (s : List Char) : List (List Char) := splitSlashGo (s.length + 1) s

/-- The token loop of fs.c:579-631: resolve each token against the
enumeration of the directory accumulated so far (`dst`), comparing FCB
forms; `"."`/`".."` entries skipped; a matching non-directory is skipped
when more tokens follow; on failure the raw token is appended to the
output and -1 returned. -/
def shorttolongGo (env : FsEnv) (dst : List Char) (toks : List (List Char)) :
    Int × List Char :=
  match toks with
  | [] => (0, dst)
  | t :: rest =>
    let fcb := filename2fcb t
    match env.listDir dst with
    | none => (-1, dst)
    | some entries =>
      match entries.find? (fun e =>
          !(e.dname == ['.'] || e.dname == ['.', '.']) &&
          filename2fcb e.dname == fcb &&
          (rest.isEmpty || e.isDirE)) with
      | none => (-1, dst ++ t)
      | some e =>
        shorttolongGo env (dst ++ e.dname ++ (if rest.isEmpty then [] else ['/'])) rest

/-- fs.c:543 `shorttolong`: translate the slash-normalized DOS path `src`
(which the callers always build as `root ++ "/" ++ ...`, satisfying the
`assert` at fs.c:560) into the real host path; returns (0, path) on success
and (-1, partial path) on failure. -/
def shorttolong (env : FsEnv) (src root : List Char) : Int × List Char :=
  let rest := src.drop root.length
  let dst := root ++ ['/']
  if src.take root.length ≠ root then (-1, dst)
  else if getC rest 0 ≠ '/' then (-1, dst)
  else shorttolongGo env dst (splitSlash (rest.drop 1))

/-! ## ethersrv.c: frame-level helpers -/

/-- ethersrv.c:165 `isroot`: `dir` denotes the root of the drive rooted at
`root` (both pointers are advanced while both strings have characters, then
any leading `'/'` of the remainder is skipped; a further `'/'` means a
subdirectory).  Returns `true` for the C return value 1. -/
def isroot (root dir : List Char) : Bool :=
  let d1 := dir.drop (min root.length dir.length)
  let d2 := d1.dropWhile (fun c => c = '/')
  !(d2.contains '/')

/-- ethersrv.c:184 `explodepath`: split a `X:\DIR\FILE????.???` search path
(the drive prefix skipped when present) at its last slash or backslash into
directory part (slash included) and file/mask part. -/
def explodepath (source : List Char) : List Char × List Char :=
  let src := if source.length ≥ 2 ∧ getC source 1 = ':' then source.drop 2 else source
  let lb := (List.range src.length).foldl
    (fun acc i => if getC src i = '\\' ∨ getC src i = '/' then i else acc) 0
  (src.take (lb + 1), src.drop (lb + 1))

/-- ethersrv.c:213 `copy_after_last_slash`: replace `dst` by everything
after the last `'/'` of `src`, or keep `dst` when `src` has no slash. -/
def copyAfterLastSlash (dst src : List Char) : List Char :=
  if src.contains '/' then (src.reverse.takeWhile (fun c => c ≠ '/')).reverse else dst

/-- ethersrv.c:858 `bsdsum`: 16-bit rotate-right-and-add checksum. -/
def bsdsum (l : List Nat) : Nat :=
  l.foldl (fun r b => ((((r <<< 15) ||| (r >>> 1)) &&& 0xffff) + b) &&& 0xffff) 0

/-- One entry of the reply cache `answcache` (ethersrv.c:79): stored frame
(client MAC in its first 6 bytes), answer timestamp, frame length. -/
structure Answ where
  frame : List Nat
  timestamp : Nat
  len : Nat
deriving DecidableEq

instance : Inhabited Answ := ⟨⟨[], 0, 0⟩⟩

/-- The scan loop of ethersrv.c:152 over the 16 cache entries: first entry
whose stored MAC matches wins; otherwise the oldest entry's index. -/
def fce (cache : List Answ) (mac : List Nat) : Nat → Nat → Nat → Nat
  | _, oldest, 0 => oldest
  | i, oldest, fuel + 1 =>
    if (cache.getD i default).frame.take 6 = mac then i
    else fce cache mac (i + 1)
      (if (cache.getD i default).timestamp < (cache.getD oldest default).timestamp
       then i else oldest)
      fuel

/-- ethersrv.c:149 `findcacheentry`: index of the cache entry for
`clientmac` (the oldest entry when no stored MAC matches). -/
def findcacheentry (cache : List Answ) (mac : List Nat) : Nat := fce cache mac 0 0 16

/-! ## ethersrv.c:220 `process` -/

/-- The result of `process`: a negative return with the (possibly
header-scribbled) answer buffer, a cache hit returning the stored length, a
reply frame with its length `reslen + 60`, or a crash by NULL dereference. -/
inductive ProcOut where
  | ignore (code : Int) (frame : List Nat)
  | cachehit (len : Nat)
  | reply (frame : List Nat) (len : Nat)
  | crash
deriving DecidableEq

/-- The outcome of one dispatcher branch: AX result, payload bytes written
at answer offset 60, host actions, updated handle table; `halt` is the
mid-branch `return(-1)` of ethersrv.c:686; `crash` a NULL dereference or
undefined-size `memcpy`. -/
inductive BranchOut where
  | normal (ax : Nat) (payload : List Nat) (acts : List HostAct) (st : FsDb)
  | halt (code : Int) (acts : List HostAct) (st : FsDb)
  | crash

/-- The cache-hit test of ethersrv.c:234: same sequence byte, stored MAC
equal to the request's source MAC, non-empty stored reply. -/
def cachehitTest (answer : Answ) (req : List Nat) : Bool :=
  (getB answer.frame 57 == getB req 57) &&
  (answer.frame.take 6 == (req.drop 6).take 6) &&
  (answer.len != 0)

/-- Reply-header construction of ethersrv.c:242-246: copy the request's
first 60 bytes over the answer buffer, put the request's source MAC into
the destination field and the local MAC into the source field. -/
def mkBase (oldframe req mymac : List Nat) : List Nat :=
  setSeq (setSeq (setSeq oldframe 0 (req.take 60)) 0 ((req.drop 6).take 6)) 6 (mymac.take 6)

/-- Write the 16-bit AX result at reply bytes 58-59 (ethersrv.c:249, the
little-endian store `*ax = ...`) and the branch payload from byte 60 on. -/
def assemble (base : List Nat) (ax : Nat) (payload : List Nat) : List Nat :=
  setSeq ((base.set 58 (ax &&& 255)).set 59 ((ax >>> 8) &&& 255)) 60 payload

/-- The 24-byte FINDFIRST/FINDNEXT found-file reply payload
(ethersrv.c:374-386): attribute, FCB name, DOS time, size, directory id,
new cursor. -/
def fprops24 (fp : FileProps) (dirss fpos : Nat) : List Nat :=
  fp.fattr :: charsToBytes fp.fcbname ++ le32Bytes fp.ftime ++ le32Bytes fp.fsize
    ++ le16Bytes dirss ++ le16Bytes fpos

/-- The DOS path built by every path-bearing branch: `"%s/"` of the drive
root, the payload bytes appended as a C string, the payload part
lower-cased (`lostring(directory + offset, -1)`), backslashes replaced. -/
def dosPath (root : List Char) (payloadBytes : List Nat) : List Char :=
  charreplace (root ++ '/' :: lostring (takeCStr (bytesToChars payloadBytes))) '\\' '/'

/-- ethersrv.c:285 (AL_DISKSPACE): report capped disk totals as 32-KiB
clusters; AX=1 (media id 0, one sector per cluster), BX total clusters,
CX bytes per sector 32768, DX free clusters. -/
def branchDiskspace (env : FsEnv) (root : List Char) (st : FsDb) : BranchOut :=
  let di := diskinfo env root
  let ds := if di.1 ≥ 2147483647 then 2147483647 else di.1
  let fs := if di.2 ≥ 2147483647 then 2147483647 else di.2
  let bx := (ds >>> 15) &&& 0xffff
  let dx := (fs >>> 15) &&& 0xffff
  .normal 1 (le16Bytes bx ++ le16Bytes 32768 ++ le16Bytes dx) [] st

/-- ethersrv.c:302 (AL_READFIL): read up to the requested number of bytes of
the file handle into the reply; AX=5 on a failed read (stale handle). -/
def branchReadfil (env : FsEnv) (st : FsDb) (payload : List Nat) : BranchOut :=
  let offset := le32 payload 0
  let fileid := le16 payload 4
  let len := le16 payload 6
  match readfile env st fileid offset len with
  | none => .normal 5 [] [] st
  | some bytes => .normal 0 bytes [] st

/-- ethersrv.c:318 (AL_WRITEFIL): write the payload bytes after the 6-byte
header at the given offset (an empty payload truncates); AX=5 on failure,
otherwise the written count is returned. -/
def branchWritefil (env : FsEnv) (st : FsDb) (payload : List Nat) (plen : Nat) : BranchOut :=
  let offset := le32 payload 0
  let fileid := le16 payload 4
  let data := (payload.take plen).drop 6
  match writefile env st fileid offset data with
  | (none, acts) => .normal 5 [] acts st
  | (some w, acts) => .normal 0 (le16Bytes w) acts st

/-- ethersrv.c:337 (AL_FINDFIRST).  With an empty payload the C calls
`explodepath` with length -1, making the `memcpy` size wrap around
(undefined behavior), modeled as `crash`.  A `shorttolong` failure is only
logged (ethersrv.c:363-366) and the partial host path is used. -/
def branchFindfirst (env : FsEnv) (st : FsDb) (payload : List Nat) (plen : Nat)
    (root : List Char) (reqdrv : Nat) (drivesfat : Nat → Bool) : BranchOut :=
  if plen = 0 then .crash
  else
    let fattr := getB payload 0
    let ep := explodepath (bytesToChars ((payload.take plen).drop 1))
    let dirpart := lostring (takeCStr ep.1)
    let filemask := lostring (takeCStr ep.2)
    let directory := charreplace (root ++ '/' :: dirpart) '\\' '/'
    let filemaskfcb := filename2fcb filemask
    let isrootF := isroot root directory
    let isfatF := drivesfat reqdrv
    let stl := shorttolong env directory root
    let host_directory := stl.2
    let gi := getitemss env st host_directory
    let dirss := gi.1
    if dirss = 0xffff then .normal 0x12 [] [] gi.2
    else
      match findfile env gi.2 dirss filemaskfcb fattr 0 isrootF isfatF with
      | .crash => .crash
      | .res none st2 => .normal 0x12 [] [] st2
      | .res (some r) st2 => .normal 0 (fprops24 r.1 dirss r.2) [] st2

/-- ethersrv.c:389 (AL_FINDNEXT): look up the wire directory id and cursor
and continue the iteration.  A stale id makes `sstoitem` return NULL, which
`isroot` (ethersrv.c:403) dereferences — modeled as `crash`. -/
def branchFindnext (env : FsEnv) (st : FsDb) (payload : List Nat)
    (root : List Char) (reqdrv : Nat) (drivesfat : Nat → Bool) : BranchOut :=
  let dirss := le16 payload 0
  let fpos := le16 payload 2
  let fattr := getB payload 4
  let fcbmask := bytesToChars ((payload.drop 5).take 11)
  match sstoitem st dirss with
  | none => .crash
  | some dpath =>
    let isrootF := isroot root dpath
    let isfatF := drivesfat reqdrv
    match findfile env st dirss fcbmask fattr fpos isrootF isfatF with
    | .crash => .crash
    | .res none st2 => .normal 0x12 [] [] st2
    | .res (some r) st2 => .normal 0 (fprops24 r.1 dirss r.2) [] st2

/-- ethersrv.c:425 (AL_MKDIR / AL_RMDIR): resolve the path (an unresolved
path is only logged, ethersrv.c:437, and the partial output used) and
create or remove the directory; AX=29 on failure. -/
def branchMkRmdir (query : Nat) (env : FsEnv) (st : FsDb) (payload : List Nat)
    (plen : Nat) (root : List Char) : BranchOut :=
  let directory := dosPath root (payload.take plen)
  let host_directory := (shorttolong env directory root).2
  if query = 0x03 then
    if makedir env host_directory ≠ 0 then .normal 29 [] [.mkdirA host_directory] st
    else .normal 0 [] [.mkdirA host_directory] st
  else
    if remdir env host_directory ≠ 0 then .normal 29 [] [.rmdirA host_directory] st
    else .normal 0 [] [.rmdirA host_directory] st

/-- ethersrv.c:454 (AL_CHDIR): AX=3 when the path cannot be resolved or
`chdir` fails. -/
def branchChdir (env : FsEnv) (st : FsDb) (payload : List Nat) (plen : Nat)
    (root : List Char) : BranchOut :=
  let directory := dosPath root (payload.take plen)
  let stl := shorttolong env directory root
  if stl.1 ≠ 0 then .normal 3 [] [] st
  else if changedir env stl.2 ≠ 0 then .normal 3 [] [.chdirA stl.2] st
  else .normal 0 [] [.chdirA stl.2] st

/-- ethersrv.c:478 (AL_SETATTR): AX=2 when the path cannot be resolved or
(on a FAT drive) the attribute cannot be set; a non-FAT drive acknowledges
without doing anything. -/
def branchSetattr (env : FsEnv) (st : FsDb) (payload : List Nat) (plen : Nat)
    (root : List Char) (reqdrv : Nat) (drivesfat : Nat → Bool) : BranchOut :=
  let fattr := getB payload 0
  let fullpathname := dosPath root ((payload.take plen).drop 1)
  let stl := shorttolong env fullpathname root
  if stl.1 ≠ 0 then .normal 2 [] [] st
  else if drivesfat reqdrv then
    if setitemattr env stl.2 fattr ≠ 0 then .normal 2 [] [.setattrA stl.2 fattr] st
    else .normal 0 [] [.setattrA stl.2 fattr] st
  else .normal 0 [] [] st

/-- ethersrv.c:500 (AL_GETATTR): DOS time, size and attribute of the
resolved path; AX=2 when unresolved or `stat` fails. -/
def branchGetattr (env : FsEnv) (st : FsDb) (payload : List Nat) (plen : Nat)
    (root : List Char) (reqdrv : Nat) (drivesfat : Nat → Bool) : BranchOut :=
  let fullpathname := dosPath root (payload.take plen)
  let stl := shorttolong env fullpathname root
  if stl.1 ≠ 0 then .normal 2 [] [] st
  else
    let r := getitemattr env env.statOf stl.2 zeroProps true (drivesfat reqdrv)
    if r.1 = 0xff then .normal 2 [] [] st
    else .normal 0 (le32Bytes r.2.ftime ++ le32Bytes r.2.fsize ++ [r.2.fattr]) [] st

/-- ethersrv.c:533 (AL_RENAME): AX=2 on a malformed payload; an unresolved
source is only logged (AX stays 0, ethersrv.c:554); AX=5 when the
destination already exists — checked on the unresolved DOS-form path,
a quirk the spec documents — or the `rename` fails. -/
def branchRename (env : FsEnv) (st : FsDb) (payload : List Nat) (plen : Nat)
    (root : List Char) : BranchOut :=
  let fn1len := getB payload 0
  let fn2len := plen - (1 + fn1len)
  if plen > fn1len then
    let fn1 := dosPath root (((payload.take plen).drop 1).take fn1len)
    let fn2 := dosPath root (((payload.take plen).drop (1 + fn1len)).take fn2len)
    let stl := shorttolong env fn1 root
    if stl.1 ≠ 0 then .normal 0 [] [] st
    else if (getitemattr env env.statOf fn2 zeroProps false false).1 ≠ 0xff then
      .normal 5 [] [] st
    else if renfile env stl.2 fn2 ≠ 0 then .normal 5 [] [.renameA stl.2 fn2] st
    else .normal 0 [] [.renameA stl.2 fn2] st
  else .normal 2 [] [] st

/-- ethersrv.c:568 (AL_DELETE): AX=2 when the path cannot be resolved;
AX=5 when the resolved target's attribute has the read-only bit (a failed
`getitemattr` returns 0xFF whose low bit is also set, the quirk spec
section 9 documents); otherwise delete and report AX=2 only on a `delfiles`
failure. -/
def branchDelete (env : FsEnv) (st : FsDb) (payload : List Nat) (plen : Nat)
    (root : List Char) (reqdrv : Nat) (drivesfat : Nat → Bool) : BranchOut :=
  let fullpathname := dosPath root (payload.take plen)
  let stl := shorttolong env fullpathname root
  if stl.1 ≠ 0 then .normal 2 [] [] st
  else if (getitemattr env env.statOf stl.2 zeroProps false (drivesfat reqdrv)).1 &&& 1 ≠ 0 then
    .normal 5 [] [] st
  else
    let dr := delfiles env stl.2
    if dr.1 < 0 then .normal 2 [] dr.2 st else .normal 0 [] dr.2 st

/-- ethersrv.c:708 (AL_SKFMEND): clamp a positive seek-from-end offset to 0,
add the file size in 32-bit signed arithmetic (overflow wraps on the
target), clamp a negative result to 0; AX=2 on a stale handle. -/
def branchSkfmend (env : FsEnv) (st : FsDb) (payload : List Nat) : BranchOut :=
  let offs0 : Int := if le32 payload 0 < 2147483648 then (le32 payload 0 : Int)
                     else (le32 payload 0 : Int) - 4294967296
  let fss := le16 payload 4
  let offs1 := if offs0 > 0 then 0 else offs0
  let fsize := getfopsize env st fss
  if fsize < 0 then .normal 2 [] [] st
  else
    let s := (offs1 + fsize) % 4294967296
    let offs2 : Int := if s < 2147483648 then s else s - 4294967296
    let offs3 := if offs2 < 0 then 0 else offs2
    .normal 0 (le32Bytes offs3.toNat) [] st

/-- The per-query case analysis of ethersrv.c:636-675 inside the combined
OPEN/CREATE/SPOPNFIL handler: returns (fileres, fileprops, spopres,
resopenmode, acts).  `FAT_VOL | FAT_DIR` is `0x08 | 0x10` per the DOS
attribute bits of spec section 3 (the macros live in the missing fs.h). -/
def openCase (query : Nat) (env : FsEnv) (host_directory fname host_fullpathname : List Char)
    (stackattr actioncode spopen_openmode : Nat) (isfatF : Bool) :
    Int × FileProps × Nat × Nat × List HostAct :=
  if query = 0x17 then
    match createfile env host_directory fname (stackattr &&& 255) isfatF with
    | (none, acts) => (-1, zeroProps, 0, 2, acts)
    | (some fp, acts) => (0, fp, 0, 2, acts)
  else if query = 0x2E then
    let ga := getitemattr env env.statOf host_fullpathname zeroProps true isfatF
    let resopenmode := spopen_openmode &&& 0x7f
    if ga.1 = 0xff then
      if actioncode &&& 0xf0 = 16 then
        match createfile env host_directory fname (stackattr &&& 255) isfatF with
        | (none, acts) => (-1, zeroProps, 0, resopenmode, acts)
        | (some fp, acts) => (0, fp, 2, resopenmode, acts)
      else (1, ga.2, 0, resopenmode, [])
    else if ga.1 &&& 24 ≠ 0 then (1, ga.2, 0, resopenmode, [])
    else if actioncode &&& 0x0f = 1 then (0, ga.2, 1, resopenmode, [])
    else if actioncode &&& 0x0f = 2 then
      match createfile env host_directory fname (stackattr &&& 255) isfatF with
      | (none, acts) => (-1, zeroProps, 0, resopenmode, acts)
      | (some fp, acts) => (0, fp, 3, resopenmode, acts)
    else (1, ga.2, 0, resopenmode, [])
  else
    let resopenmode := stackattr &&& 255
    let ga := getitemattr env env.statOf host_fullpathname zeroProps true isfatF
    if ga.1 ≠ 0xff ∧ ga.1 &&& 24 = 0 then (0, ga.2, 0, resopenmode, [])
    else (1, ga.2, 0, resopenmode, [])

/-- The 25-byte OPEN/CREATE/SPOPNFIL success payload (ethersrv.c:688-704). -/
def openReply (fp : FileProps) (fileid spopres resopenmode : Nat) : List Nat :=
  fp.fattr :: charsToBytes fp.fcbname ++ le32Bytes fp.ftime ++ le32Bytes fp.fsize
    ++ [fileid &&& 255, fileid >>> 8, spopres &&& 255, spopres >>> 8, resopenmode]

/-- ethersrv.c:588 (AL_OPEN / AL_CREATE / AL_SPOPNFIL).  A payload shorter
than the 6-byte fixed part makes the `memcpy` at ethersrv.c:607 wrap its
size (undefined behavior), modeled as `crash`.  AX=3 when the directory
cannot be resolved or entered; AX=2 when the open/create fails; a failed
handle intern is the mid-branch `return(-1)` (ethersrv.c:686), unreachable
here since the intern oracle cannot fail. -/
def branchOpen (query : Nat) (env : FsEnv) (st : FsDb) (payload : List Nat) (plen : Nat)
    (root : List Char) (reqdrv : Nat) (drivesfat : Nat → Bool) : BranchOut :=
  if plen < 6 then .crash
  else
    let stackattr := le16 payload 0
    let actioncode := le16 payload 2
    let spopen_openmode := le16 payload 4
    let rawpath := bytesToChars ((payload.take plen).drop 6)
    let fullpathname := charreplace (root ++ '/' :: lostring (takeCStr rawpath)) '\\' '/'
    let ep := explodepath rawpath
    let directory := charreplace (root ++ '/' :: lostring (takeCStr ep.1)) '\\' '/'
    let fname0 := takeCStr ep.2
    let stlDir := shorttolong env directory root
    if stlDir.1 ≠ 0 then .normal 3 [] [] st
    else if changedir env stlDir.2 ≠ 0 then .normal 3 [] [.chdirA stlDir.2] st
    else
      let host_directory := stlDir.2
      let stlFull := shorttolong env fullpathname root
      let fname := if stlFull.1 = 0 then copyAfterLastSlash fname0 stlFull.2 else fname0
      let host_fullpathname :=
        if stlFull.1 = 0 then stlFull.2 else host_directory ++ '/' :: fname0
      let oc := openCase query env host_directory fname host_fullpathname
        stackattr actioncode spopen_openmode (drivesfat reqdrv)
      let acts := HostAct.chdirA stlDir.2 :: oc.2.2.2.2
      if oc.1 ≠ 0 then .normal 2 [] acts st
      else
        let gi := getitemss env st host_fullpathname
        if gi.1 = 0xffff then .halt (-1) acts gi.2
        else .normal 0 (openReply oc.2.1 gi.1 oc.2.2.1 oc.2.2.2.1) acts gi.2

/-- The if-else query chain of ethersrv.c:285-727, in source order.  The
opcodes the chain never tests — AL_INSTALLCHK (0x00) and AL_CMMTFIL (0x07)
among them — fall through to the final `return(-1)` (ethersrv.c:725). -/
def processQuery (query : Nat) (payload : List Nat) (plen : Nat) (root : List Char)
    (reqdrv : Nat) (drivesfat : Nat → Bool) (env : FsEnv) (st : FsDb) : BranchOut :=
  if query = 0x0C then branchDiskspace env root st
  else if query = 0x08 ∧ plen = 8 then branchReadfil env st payload
  else if query = 0x09 ∧ plen ≥ 6 then branchWritefil env st payload plen
  else if query = 0x0A ∨ query = 0x0B then .normal 0 [] [] st
  else if query = 0x1B then branchFindfirst env st payload plen root reqdrv drivesfat
  else if query = 0x1C then branchFindnext env st payload root reqdrv drivesfat
  else if query = 0x03 ∨ query = 0x01 then branchMkRmdir query env st payload plen root
  else if query = 0x05 then branchChdir env st payload plen root
  else if query = 0x06 then .normal 0 [] [] st
  else if query = 0x0E ∧ plen > 1 then branchSetattr env st payload plen root reqdrv drivesfat
  else if query = 0x0F ∧ plen > 0 then branchGetattr env st payload plen root reqdrv drivesfat
  else if query = 0x11 ∧ plen > 2 then branchRename env st payload plen root
  else if query = 0x13 then branchDelete env st payload plen root reqdrv drivesfat
  else if query = 0x16 ∨ query = 0x17 ∨ query = 0x2E then
    branchOpen query env st payload plen root reqdrv drivesfat
  else if query = 0x21 ∧ plen = 6 then branchSkfmend env st payload
  else .halt (-1) [] st

/-- ethersrv.c:220 `process`: short-frame and reply-cache checks, reply
header construction, drive validation (-3 silently ignores an invalid or
unmapped drive, the header already scribbled over the cache frame), then
the per-query dispatch; a reply's length is `reslen + 60`. -/
def process (answer : Answ) (reqbuff : List Nat) (reqbufflen : Nat) (mymac : List Nat)
    (rootarray : Nat → Option (List Char)) (drivesfat : Nat → Bool)
    (env : FsEnv) (st : FsDb) : ProcOut × List HostAct × FsDb :=
  if reqbufflen < 60 then (.ignore (-1) answer.frame, [], st)
  else if cachehitTest answer reqbuff then (.cachehit answer.len, [], st)
  else
    let base := mkBase answer.frame reqbuff mymac
    let reqdrv := getB reqbuff 58 &&& 31
    let query := getB reqbuff 59
    let payload := reqbuff.drop 60
    let plen := reqbufflen - 60
    if reqdrv < 2 ∨ reqdrv > 25 then (.ignore (-3) base, [], st)
    else
      match rootarray reqdrv with
      | none => (.ignore (-3) base, [], st)
      | some root =>
        match processQuery query payload plen root reqdrv drivesfat env st with
        | .normal ax pl acts st2 => (.reply (assemble base ax pl) (60 + pl.length), acts, st2)
        | .halt c acts st2 => (.ignore c (assemble base 0 []), acts, st2)
        | .crash => (.crash, [], st)

/-! ## ethersrv.c:904 `main` — per-frame receive loop body -/

/-- The broadcast destination address accepted by ethersrv.c:1007. -/
def bcastMac : List Nat := [255, 255, 255, 255, 255, 255]

/-- Frame validation of ethersrv.c:1004-1038: minimum length, destination
MAC, ethertype 0xEDF5 (big-endian on the wire), protocol version 2, the
embedded frame length (when non-zero it must be within [60, received
length] and replaces it), and the BSD checksum over bytes 56..end when the
checksum flag (bit 7 of byte 56) is set.  Returns the effective length and
the checksum flag, or `none` when the frame is silently dropped. -/
def validate (mymac buff : List Nat) (len : Nat) : Option (Nat × Bool) :=
  if len < 60 then none
  else if ¬(buff.take 6 = mymac ∨ buff.take 6 = bcastMac) then none
  else if ¬(getB buff 12 = 0xED ∧ getB buff 13 = 0xF5) then none
  else if getB buff 56 &&& 127 ≠ 2 then none
  else
    let flag := (getB buff 56 >>> 7) != 0
    let efl := le16 buff 52
    if 0 < efl ∧ (efl > len ∨ efl < 60) then none
    else
      let len2 := if 0 < efl then efl else len
      if flag = true ∧ bsdsum ((buff.take len2).drop 56) ≠ le16 buff 54 then none
      else some (len2, flag)

/-- The outgoing-frame patching of ethersrv.c:1056-1069, applied in place to
the cached frame: store the length at bytes 52-53, then either recompute
the BSD checksum over bytes 56..len-1 into bytes 54-55 and set the checksum
flag, or zero the checksum and clear the flag. -/
def mutate (f : List Nat) (len : Nat) (flag : Bool) : List Nat :=
  let f1 := (f.set 52 (len &&& 255)).set 53 ((len >>> 8) &&& 255)
  if flag then
    let ck := bsdsum ((f1.drop 56).take (len - 56))
    ((f1.set 54 (ck &&& 255)).set 55 ((ck >>> 8) &&& 255)).set 56 (getB f1 56 ||| 128)
  else
    ((f1.set 54 0).set 55 0).set 56 (getB f1 56 &&& 127)

/-- Result of one main-loop iteration on a received frame: silently
dropped by validation, crashed in dispatch, or completed with the new
cache, handle table, the frame sent (if any), the host actions, and the
`process` outcome. -/
inductive StepRes where
  | dropped
  | crashed
  | ok (cache : List Answ) (db : FsDb) (sent : Option (List Nat)) (acts : List HostAct)
      (pout : ProcOut)

/-- The frame sent during a step, if any. -/
def StepRes.sentOf : StepRes → Option (List Nat)
  | .ok _ _ s _ _ => s
  | _ => none

/-- The dispatcher outcome of a step, if the frame survived validation. -/
def StepRes.poutOf : StepRes → Option ProcOut
  | .ok _ _ _ _ p => some p
  | _ => none

/-- The host actions of a step. -/
def StepRes.actsOf : StepRes → List HostAct
  | .ok _ _ _ a _ => a
  | _ => []

/-- Whether the step crashed. -/
def StepRes.isCrashed : StepRes → Bool
  | .crashed => true
  | _ => false

/-- The AX word of the frame sent during a step, if any. -/
def StepRes.axOf (r : StepRes) : Option Nat := r.sentOf.map (fun f => le16 f 58)

/-- The dispatcher-computed reply length of a step (`reslen + 60`), if the
step produced a fresh (non-cached) reply. -/
def StepRes.replyLenOf : StepRes → Option Nat
  | .ok _ _ _ _ (.reply _ L) => some L
  | _ => none

/-- One iteration of the receive loop (ethersrv.c:1002-1081): validate,
pick the cache entry for the client MAC, `process`, update the cache entry
(length 0 poisons it after an ignored query, which leaves the timestamp
alone), patch length/checksum and send when the result is positive. -/
def serverStep (mymac : List Nat) (roots : Nat → Option (List Char))
    (drivesfat : Nat → Bool) (env : FsEnv) (cache : List Answ) (db : FsDb)
    (buff : List Nat) (len now : Nat) : StepRes :=
  match validate mymac buff len with
  | none => .dropped
  | some vr =>
    let i := findcacheentry cache ((buff.drop 6).take 6)
    let e := cache.getD i default
    match process e buff vr.1 mymac roots drivesfat env db with
    | (.crash, _, _) => .crashed
    | (.ignore c f, acts, db2) =>
      .ok (cache.set i ⟨f, e.timestamp, 0⟩) db2 none acts (.ignore c f)
    | (.cachehit L, acts, db2) =>
      let f2 := mutate e.frame L vr.2
      .ok (cache.set i ⟨f2, now, L⟩) db2 (some (f2.take L)) acts (.cachehit L)
    | (.reply f L, acts, db2) =>
      let f2 := mutate f L vr.2
      .ok (cache.set i ⟨f2, now, L⟩) db2 (some (f2.take L)) acts (.reply f L)

/-! ## Specification-side FCB conversion

Two functional descriptions of `filename2fcb`, written from the prose of
the spec rather than the C, for comparison with the embedding:
`fcbClaimSpec` follows the claim's wording ("extension after the LAST dot",
plain space-skipping); `fcbAmendedSpec` is the amended description that the
equivalence theorem below relates to the code. -/

/-- The leading `'.'` run the conversion preserves (at most 8 characters). -/
def fcbDotsA (s : List Char) : List Char := (s.take 8).takeWhile (fun c => c == '.')

/-- Spec-side name scan: copy up to `k` upper-cased characters, a run of
spaces skipped before each copied character (so the character copied right
after a space run may itself be a `'.'`), stopping when the current
character is `'.'` or the string ends; when the space run reaches the end
of the string one NUL character is copied. -/
def nameScan : List Char → Nat → List Char
  | _, 0 => []
  | [], _ + 1 => []
  | c :: rest, k + 1 =>
    if c = '.' then []
    else
      match (c :: rest).dropWhile (fun x => x == ' ') with
      | [] => [nulc]
      | c2 :: rest2 => upchar c2 :: nameScan rest2 k
termination_by _ k => k
decreasing_by omega

/-- The source position where the extension scan starts: the number of FCB
name cells filled (dots plus copied name characters) — the C advances the
source by that cell count (`s += i`, fs.c:158), not by the number of source
characters consumed. -/
def extScanStart (s : List Char) : Nat :=
  (fcbDotsA s).length
    + (nameScan (s.drop (fcbDotsA s).length) (8 - (fcbDotsA s).length)).length

/-- Spec-side extension: up to 3 upper-cased characters after the first
`'.'` at or after `extScanStart`, stopping at `'.'`, `' '` or the end; no
extension when no such dot exists. -/
def fcbExtA (s : List Char) : List Char :=
  match (s.drop (extScanStart s)).dropWhile (fun c => !(c == '.')) with
  | [] => []
  | _ :: r => ((r.take 3).takeWhile (fun c => !(c == '.') && !(c == ' '))).map upchar

/-- The amended functional description of the FCB conversion: 11 bytes,
space-filled, leading dots preserved, then the scanned name, then at
position 8 the extension from after the first name-terminating dot. -/
def fcbAmendedSpec (s : List Char) : List Char :=
  let nm := fcbDotsA s ++ nameScan (s.drop (fcbDotsA s).length) (8 - (fcbDotsA s).length)
  let ex := fcbExtA s
  (nm ++ List.replicate (8 - nm.length) ' ') ++ (ex ++ List.replicate (3 - ex.length) ' ')

/-- Everything after the last `'.'` of `s`. -/
def afterLastDot (s : List Char) : List Char :=
  (s.reverse.takeWhile (fun c => !(c == '.'))).reverse

/-- The FCB conversion as the claim words it: fill 11 bytes with spaces,
keep leading dots, copy up to 8 name bytes skipping embedded spaces and
upper-casing until a `'.'` or the end, then copy up to 3 extension bytes
taken after the LAST `'.'` of the name. -/
def fcbClaimSpec (s : List Char) : List Char :=
  let dots := (s.take 8).takeWhile (fun c => c == '.')
  let rest := s.drop dots.length
  let nm := dots ++
    (((rest.filter (fun c => !(c == ' '))).takeWhile (fun c => !(c == '.'))).take
      (8 - dots.length)).map upchar
  let ex := if rest.contains '.' then
      ((afterLastDot rest).take 3).takeWhile (fun c => !(c == '.') && !(c == ' '))
        |>.map upchar
    else []
  (nm ++ List.replicate (8 - nm.length) ' ') ++ (ex ++ List.replicate (3 - ex.length) ' ')

/-- The ignore code of a step whose query was ignored (negative `process`
return), if any. -/
def StepRes.ignoredCodeOf : StepRes → Option Int
  | .ok _ _ _ _ (.ignore c _) => some c
  | _ => none

/-! ## Concrete fixtures

A small server configuration (local MAC, one mapped drive `C:` at host root
`/srv`, non-FAT) and concrete frames and host oracles used to evaluate the
embedding at specific inputs. -/

/-- A zeroed reply-cache entry (the `answcache` array is static storage). -/
def answ0 : Answ := ⟨List.replicate 1520 0, 0, 0⟩

/-- The 16-entry reply cache at program start. -/
def cache0 : List Answ := List.replicate 16 answ0

def mymacC : List Nat := [16, 32, 48, 64, 80, 96]

def clientMacC : List Nat := [9, 9, 9, 9, 9, 9]

/-- Drive table: only `C:` (index 2) mapped, to host root `/srv`. -/
def rootsC : Nat → Option (List Char) := fun d => if d = 2 then some "/srv".toList else none

/-- No drive is FAT-backed. -/
def fatC : Nat → Bool := fun _ => false

/-- The empty handle table (all 65536 `fsdb` slots free). -/
def db0 : FsDb := ⟨fun _ => none⟩

/-- A handle table with slot 3 bound to `/srv/file.bin`. -/
def dbFile : FsDb := ⟨fun i => if i = 3 then some ⟨"/srv/file.bin".toList, 0, none⟩ else none⟩

/-- A host oracle on which every call fails. -/
def envD : FsEnv :=
  ⟨fun _ => none, fun _ => none, fun _ => false, fun _ => none, fun _ => none,
   fun _ => false, fun _ _ _ => 0, fun _ => false, fun _ => false, fun _ => false,
   fun _ => false, fun _ _ => false, fun _ _ => false, fun _ => false, fun _ => none,
   fun _ => none, 1000⟩

/-- Host oracle for the DELETE scenario: `/srv` contains directory `tmp`,
which contains the plain files `old.tmp` and `keep.txt`; `unlink` succeeds. -/
def envC4 : FsEnv :=
  ⟨fun _ => none, fun _ => none, fun _ => false,
   fun p => if p = "/srv/".toList then some [⟨"tmp".toList, true⟩]
            else if p = "/srv/tmp/".toList ∨ p = "/srv/tmp".toList then
              some [⟨"old.tmp".toList, false⟩, ⟨"keep.txt".toList, false⟩]
            else none,
   fun _ => none, fun _ => false, fun _ _ _ => 0, fun _ => false, fun _ => false,
   fun _ => false, fun _ => true, fun _ _ => false, fun _ _ => false, fun _ => false,
   fun _ => none, fun _ => none, 1000⟩

/-- Host oracle with a 1461-byte file `/srv/file.bin`. -/
def envC9 : FsEnv :=
  ⟨fun _ => none, fun _ => none, fun _ => false, fun _ => none,
   fun p => if p = "/srv/file.bin".toList then some (List.replicate 1461 65) else none,
   fun _ => false, fun _ _ _ => 0, fun _ => false, fun _ => false, fun _ => false,
   fun _ => false, fun _ _ => false, fun _ _ => false, fun _ => false, fun _ => none,
   fun _ => none, 1000⟩

/-- Host oracle whose filesystem holds 10 GiB total and 4 GiB free
(`statvfs`: 2621440 fragments of 4096 bytes, 1048576 free blocks of 4096). -/
def envC7 : FsEnv :=
  ⟨fun _ => none, fun _ => none, fun _ => false, fun _ => none, fun _ => none,
   fun _ => false, fun _ _ _ => 0, fun _ => false, fun _ => false, fun _ => false,
   fun _ => false, fun _ _ => false, fun _ _ => false, fun _ => false, fun _ => none,
   fun p => if p = "/srv".toList then some (2621440, 4096, 1048576, 4096) else none, 1000⟩

/-- Host oracle on which `/srv/file.bin` stats as a 1000-byte plain file. -/
def envC8 : FsEnv :=
  ⟨fun p => if p = "/srv/file.bin".toList then some ⟨false, 1000, 123⟩ else none,
   fun _ => none, fun _ => false, fun _ => none, fun _ => none,
   fun _ => false, fun _ _ _ => 0, fun _ => false, fun _ => false, fun _ => false,
   fun _ => false, fun _ _ => false, fun _ _ => false, fun _ => false, fun _ => none,
   fun _ => none, 1000⟩

/-- An EtherDFS frame: destination and source MAC, ethertype 0xEDF5, zero
padding and transport bytes, zero embedded length and checksum, protocol
byte, sequence byte, drive byte, opcode, payload. -/
def mkFrame (dst src : List Nat) (proto seq drv al : Nat) (payload : List Nat) : List Nat :=
  dst ++ src ++ [0xED, 0xF5] ++ List.replicate 38 0 ++ [0, 0, 0, 0]
    ++ [proto, seq, drv, al] ++ payload

/-- A 60-byte INSTALLCHK request: version 2, sequence 9, drive 2 (`C:`),
opcode 0x00. -/
def c1req : List Nat := mkFrame mymacC clientMacC 2 9 2 0 []

/-- A FINDNEXT request carrying directory id 5 (an empty handle slot),
cursor 1, attribute 0, an 11-byte all-`'?'` FCB mask. -/
def c2areq : List Nat :=
  mkFrame mymacC clientMacC 2 9 2 0x1C ([5, 0, 1, 0, 0] ++ List.replicate 11 63)

/-- A READFIL request for 16 bytes at offset 0 of file id 5 (an empty
handle slot). -/
def c2breq : List Nat := mkFrame mymacC clientMacC 2 9 2 0x08 [0, 0, 0, 0, 5, 0, 16, 0]

/-- A CLSFIL request with sequence byte 7 and the checksum flag clear. -/
def c3req1 : List Nat := mkFrame mymacC clientMacC 2 7 2 0x06 []

/-- The same CLSFIL request with the checksum flag set (protocol byte
2+128), before its checksum field is filled in. -/
def c3req2pre : List Nat := mkFrame mymacC clientMacC 130 7 2 0x06 []

/-- The flag-set CLSFIL retransmit with a valid BSD checksum at bytes 54-55. -/
def c3req2 : List Nat :=
  setSeq c3req2pre 54 (le16Bytes (bsdsum ((c3req2pre.take 60).drop 56)))

/-- The main-loop step on the first CLSFIL request, from a cold cache. -/
def c3step1 : StepRes := serverStep mymacC rootsC fatC envD cache0 db0 c3req1 60 100

/-- The reply cache after that step. -/
def c3cache1 : List Answ := match c3step1 with | .ok c _ _ _ _ => c | _ => []

/-- The frame sent in answer to the first CLSFIL request. -/
def c3r1 : List Nat := match c3step1 with | .ok _ _ (some r) _ _ => r | _ => []

/-- The reply frame `process` produced for the first CLSFIL request. -/
def c3fr : List Nat := match c3step1 with | .ok _ _ _ _ (.reply f _) => f | _ => []

/-- The step on the flag-set retransmit, against the warmed cache. -/
def c3step2 : StepRes := serverStep mymacC rootsC fatC envD c3cache1 db0 c3req2 60 101

/-- A DELETE request for the wildcard pattern `\TMP\????????.TMP`. -/
def c4req : List Nat :=
  mkFrame mymacC clientMacC 2 9 2 0x13 (charsToBytes "\\TMP\\????????.TMP".toList)

/-- The host-side pattern the DELETE request denotes. -/
def c4pat : List Char := "/srv/tmp/????????.tmp".toList

/-- A READFIL request for 1461 (0x5B5) bytes at offset 0 of file id 3. -/
def c9req : List Nat := mkFrame mymacC clientMacC 2 9 2 0x08 [0, 0, 0, 0, 3, 0, 0xB5, 5]

/-- A 60-byte DISKSPACE request. -/
def c7req : List Nat := mkFrame mymacC clientMacC 2 9 2 0x0C []

/-- A SKFMEND request with offset -100 (0xFFFFFF9C little-endian) on file
id 3. -/
def c8reqV : List Nat := mkFrame mymacC clientMacC 2 9 2 0x21 [156, 255, 255, 255, 3, 0]

/-- A SKFMEND request with offset -100 on the never-assigned file id 7. -/
def c8reqS : List Nat := mkFrame mymacC clientMacC 2 9 2 0x21 [156, 255, 255, 255, 7, 0]

/-- A WRITEFIL request with offset 77, file id 3 and an empty byte payload. -/
def c10req : List Nat := mkFrame mymacC clientMacC 2 9 2 0x09 [77, 0, 0, 0, 3, 0]

/-! # Theorems

First a toolkit of lemmas about the byte-buffer primitives, then the
per-claim results. -/

theorem setSeq_length {α : Type} (vs : List α) :
    ∀ (l : List α) (i : Nat), (setSeq l i vs).length = l.length := by
  induction vs with
  | nil => intro l i; rfl
  | cons v vs ih =>
    intro l i
    simp only [setSeq, ih, List.length_set]

theorem setSeq_append {α : Type} (a b : List α) :
    ∀ (l : List α) (i : Nat), setSeq l i (a ++ b) = setSeq (setSeq l i a) (i + a.length) b := by
  induction a with
  | nil => intro l i; simp [setSeq]
  | cons x xs ih =>
    intro l i
    simp only [List.cons_append, setSeq, List.length_cons, List.append_eq]
    rw [ih]
    congr 1
    omega

theorem getB_take (l : List Nat) (n j : Nat) (h : j < n) : getB (l.take n) j = getB l j := by
  unfold getB
  rw [List.getD_eq_getElem?_getD, List.getD_eq_getElem?_getD, List.getElem?_take, if_pos h]

theorem getB_drop (l : List Nat) (n j : Nat) : getB (l.drop n) j = getB l (n + j) := by
  unfold getB
  rw [List.getD_eq_getElem?_getD, List.getD_eq_getElem?_getD, List.getElem?_drop]

theorem getB_set_eq (l : List Nat) (i v : Nat) (h : i < l.length) :
    getB (l.set i v) i = v := by
  unfold getB
  rw [List.getD_eq_getElem?_getD, List.getElem?_set_self h]
  rfl

theorem getB_set_ne (l : List Nat) (i j v : Nat) (h : i ≠ j) :
    getB (l.set i v) j = getB l j := by
  unfold getB
  rw [List.getD_eq_getElem?_getD, List.getElem?_set_ne h, ← List.getD_eq_getElem?_getD]

theorem getB_setSeq_lt (vs : List Nat) :
    ∀ (l : List Nat) (i j : Nat), j < i → getB (setSeq l i vs) j = getB l j := by
  induction vs with
  | nil => intro l i j _; rfl
  | cons v vs ih =>
    intro l i j h
    simp only [setSeq]
    rw [ih _ _ _ (by omega), getB_set_ne _ _ _ _ (by omega)]

theorem getB_setSeq_ge (vs : List Nat) :
    ∀ (l : List Nat) (i j : Nat), i + vs.length ≤ j → getB (setSeq l i vs) j = getB l j := by
  induction vs with
  | nil => intro l i j _; rfl
  | cons v vs ih =>
    intro l i j h
    simp only [List.length_cons] at h
    simp only [setSeq]
    rw [ih _ _ _ (by omega), getB_set_ne _ _ _ _ (by omega)]

theorem getB_setSeq_at (vs : List Nat) :
    ∀ (l : List Nat) (i k : Nat), k < vs.length → i + k < l.length →
      getB (setSeq l i vs) (i + k) = getB vs k := by
  induction vs with
  | nil => intro l i k h _; simp at h
  | cons v vs ih =>
    intro l i k hk hl
    simp only [List.length_cons] at hk
    simp only [setSeq]
    match k with
    | 0 =>
      simp only [Nat.add_zero] at hl ⊢
      rw [getB_setSeq_lt _ _ _ _ (by omega), getB_set_eq _ _ _ hl]
      rfl
    | k + 1 =>
      have h2 : i + (k + 1) = (i + 1) + k := by omega
      rw [h2, ih _ _ _ (by omega) (by rw [List.length_set]; omega)]
      rfl

/-! ## Bitwise characterization lemmas -/

theorem or_eq_self_iff (x y : Nat) :
    (x ||| y = x) ↔ (∀ i, y.testBit i = true → x.testBit i = true) := by
  constructor
  · intro h i hy
    have h2 := Nat.testBit_or x y i
    rw [h] at h2
    rw [h2, hy, Bool.or_true]
  · intro h
    apply Nat.eq_of_testBit_eq
    intro i
    rw [Nat.testBit_or]
    cases hy : y.testBit i
    · simp
    · simp [h i hy]

theorem testBit22_iff (i : Nat) : (22 : Nat).testBit i = true ↔ i = 1 ∨ i = 2 ∨ i = 4 := by
  constructor
  · intro h
    by_contra hc
    push_neg at hc
    rcases Nat.lt_or_ge i 5 with h5 | h5
    · interval_cases i <;> first
      | exact absurd h (by decide)
      | simp_all
    · have hlt : (22 : Nat) < 2 ^ i :=
        lt_of_lt_of_le (by norm_num) (Nat.pow_le_pow_right (by norm_num) h5)
      rw [Nat.testBit_lt_two_pow hlt] at h
      exact absurd h (by simp)
  · intro h
    rcases h with h | h | h <;> subst h <;> decide

/-- The candidate `findfileLoop` returns passed both the FCB-mask match and
the attribute filter. -/
theorem findfileLoop_sound (tmpl : List Char) (attr nth : Nat) (isrootF : Bool) :
    ∀ (l : List FileProps) (n : Nat) (fp : FileProps) (n2 : Nat),
      findfileLoop tmpl attr nth isrootF l n = some (fp, n2) →
      findfileAttrOk attr fp.fattr = true ∧ matchfile2mask tmpl fp.fcbname = 0 := by
  intro l
  induction l with
  | nil => intro n fp n2 h; simp [findfileLoop] at h
  | cons x rest ih =>
    intro n fp n2 h
    unfold findfileLoop at h
    by_cases h1 : n + 1 ≤ nth
    · rw [if_pos h1] at h; exact ih _ _ _ h
    · rw [if_neg h1] at h
      by_cases h2 : getC x.fcbname 0 = '.' ∧ isrootF = true
      · rw [if_pos h2] at h; exact ih _ _ _ h
      · rw [if_neg h2] at h
        by_cases h3 : matchfile2mask tmpl x.fcbname ≠ 0
        · rw [if_pos h3] at h; exact ih _ _ _ h
        · rw [if_neg h3] at h
          by_cases h4 : findfileAttrOk attr x.fattr = false
          · rw [if_pos h4] at h; exact ih _ _ _ h
          · rw [if_neg h4] at h
            injection h with h
            injection h with hfp hn
            subst hfp
            push_neg at h3
            constructor
            · cases h5 : findfileAttrOk attr x.fattr
              · exact absurd h5 h4
              · rfl
            · exact h3

/-- C5.  For every candidate `findfile` examines: the attribute filter
accepts a candidate of attribute byte `fattr` against requested byte `attr`
exactly when — for `attr = 0x08` — the candidate's volume bit is set, and
otherwise exactly when the candidate has no hidden (bit 1), system (bit 2)
or directory (bit 4) bit the request lacks; and any candidate the search
loop returns passed this filter (and the FCB mask). -/
theorem C5_attr_filter :
    (∀ attr fattr : Nat,
      (findfileAttrOk attr fattr = true ↔
        (if attr = 8 then Nat.testBit fattr 3 = true
         else ∀ b ∈ [1, 2, 4], Nat.testBit fattr b = true → Nat.testBit attr b = true))) ∧
    (∀ (tmpl : List Char) (attr nth : Nat) (isrootF : Bool) (l : List FileProps)
        (n : Nat) (fp : FileProps) (n2 : Nat),
      findfileLoop tmpl attr nth isrootF l n = some (fp, n2) →
      findfileAttrOk attr fp.fattr = true) := by
  constructor
  · intro attr fattr
    unfold findfileAttrOk
    by_cases h8 : attr = 8
    · simp only [h8, if_pos rfl]
      rw [show (fattr &&& 8) = fattr &&& 2 ^ 3 by norm_num, Nat.and_two_pow]
      cases hb : fattr.testBit 3 <;> simp [hb]
    · simp only [if_neg h8]
      rw [show ((0x16 : Nat) = 22) from rfl]
      constructor
      · intro h b hb hf
        have hmain : (attr ||| (fattr &&& 22)) = attr := by simpa using h
        rw [or_eq_self_iff] at hmain
        apply hmain
        rw [Nat.testBit_and, hf, Bool.true_and, testBit22_iff]
        simpa using hb
      · intro h
        have hor : (attr ||| (fattr &&& 22)) = attr := by
          rw [or_eq_self_iff]
          intro i hi
          rw [Nat.testBit_and, Bool.and_eq_true, testBit22_iff] at hi
          rcases hi with ⟨hf, h1 | h2 | h4⟩ <;> subst_vars <;>
            [exact h 1 (by simp) hf; exact h 2 (by simp) hf; exact h 4 (by simp) hf]
        simpa using hor
  · intro tmpl attr nth isrootF l n fp n2 h
    exact (findfileLoop_sound tmpl attr nth isrootF l n fp n2 h).1

/-- Witness for C5 at concrete inputs: requested attribute 0x10
(directories allowed) accepts a plain archive file (0x20) — the archive bit
is not filtered — and a concrete one-candidate search returns an entry
passing the filter. -/
theorem C5_attr_filter_witness :
    (findfileAttrOk 16 32 = true ↔
      (if (16 : Nat) = 8 then Nat.testBit 32 3 = true
       else ∀ b ∈ [1, 2, 4], Nat.testBit (32 : Nat) b = true →
         Nat.testBit (16 : Nat) b = true)) ∧
    (findfileLoop (List.replicate 11 '?') 0 0 false [⟨"A".toList, 32, 3, 4⟩] 0 =
        some (⟨"A".toList, 32, 3, 4⟩, 1) ∧
      findfileAttrOk 0 32 = true) :=
  ⟨C5_attr_filter.1 16 32,
   by
    refine ⟨by decide, ?_⟩
    exact C5_attr_filter.2 (List.replicate 11 '?') 0 0 false [⟨"A".toList, 32, 3, 4⟩] 0
      ⟨"A".toList, 32, 3, 4⟩ 1 (by decide)⟩

set_option maxRecDepth 100000 in
/-- C1.  A valid 60-byte INSTALLCHK frame (version 2, mapped drive 2,
AL=0x00) produces no reply at all: the dispatcher's query chain has no
branch for opcode 0x00, so `process` returns -1 ("unknown query - ignore",
ethersrv.c:725) and the main loop only poisons the client's cache slot.
The claim's 60-byte AX=0 reply is never sent. -/
theorem C1_installchk_ignored :
    (serverStep mymacC rootsC fatC envD cache0 db0 c1req 60 100).sentOf = none ∧
    (serverStep mymacC rootsC fatC envD cache0 db0 c1req 60 100).ignoredCodeOf =
      some (-1) := by
  constructor
  · decide
  · decide

set_option maxRecDepth 100000 in
/-- C2.  Stale 16-bit ids do not produce the claimed AX=2 reply: a FINDNEXT
(0x1C) carrying a directory id whose `fsdb` slot is empty crashes — the C
passes the NULL `sstoitem` result straight into `isroot` (ethersrv.c:403) —
and a READFIL (0x08) with a stale file id replies AX=5 ("access denied",
ethersrv.c:313), not AX=2. -/
theorem C2_stale_handles :
    (serverStep mymacC rootsC fatC envD cache0 db0 c2areq 76 100).isCrashed = true ∧
    (serverStep mymacC rootsC fatC envD cache0 db0 c2breq 68 100).axOf = some 5 ∧
    some (5 : Nat) ≠ some 2 := by
  refine ⟨by decide, by decide, by decide⟩

set_option maxRecDepth 100000 in
/-- C4.  A DELETE (0x13) of the wildcard pattern `\TMP\????????.TMP`, with
`/srv/tmp` holding the matching plain file `old.tmp`, replies AX=2 and
unlinks nothing: `shorttolong` compares FCB names by equality, so the
`'?'`-mask token never resolves and the dispatcher bails out (ethersrv.c:580)
before reaching `delfiles` — whose wildcard branch, called directly on the
same pattern, would have deleted `old.tmp` and returned 0 as the claim
describes. -/
theorem C4_wildcard_delete :
    (serverStep mymacC rootsC fatC envC4 cache0 db0 c4req 77 100).axOf = some 2 ∧
    (serverStep mymacC rootsC fatC envC4 cache0 db0 c4req 77 100).actsOf = [] ∧
    delfiles envC4 c4pat = (0, [.unlinkA "/srv/tmp/old.tmp".toList]) := by
  refine ⟨by decide, by decide, by decide⟩

set_option maxRecDepth 100000 in
/-- C9.  A READFIL (0x08) requesting 1461 bytes of a 1461-byte file makes
the dispatcher return reply length 60 + 1461 = 1521, exceeding the 1520-byte
`answcache` frame (ethersrv.c:80): the requested length is never clamped, so
`readfile` (fs.c:428) writes past the reply buffer and the reply length
breaks the frame capacity the claim asserts. -/
theorem C9_readfil_overflow :
    (serverStep mymacC rootsC fatC envC9 cache0 dbFile c9req 68 100).replyLenOf =
      some 1521 ∧ 1520 < 1521 := by
  refine ⟨by decide, by decide⟩

/-! ## Frame-assembly lemmas -/

theorem recompose16 (v : Nat) (h : v < 65536) :
    (v &&& 255) + 256 * ((v >>> 8) &&& 255) = v := by
  rw [Nat.and_pow_two_sub_one_eq_mod v 8, Nat.and_pow_two_sub_one_eq_mod _ 8,
    Nat.shiftRight_eq_div_pow]
  norm_num
  omega

theorem recompose32 (v : Nat) (h : v < 4294967296) :
    (v &&& 255) + 256 * ((v >>> 8) &&& 255) + 65536 * ((v >>> 16) &&& 255)
      + 16777216 * ((v >>> 24) &&& 255) = v := by
  rw [Nat.and_pow_two_sub_one_eq_mod v 8, Nat.and_pow_two_sub_one_eq_mod _ 8,
    Nat.and_pow_two_sub_one_eq_mod _ 8, Nat.and_pow_two_sub_one_eq_mod _ 8,
    Nat.shiftRight_eq_div_pow, Nat.shiftRight_eq_div_pow, Nat.shiftRight_eq_div_pow]
  norm_num
  omega

theorem assemble_length (base : List Nat) (ax : Nat) (p : List Nat) :
    (assemble base ax p).length = base.length := by
  unfold assemble
  rw [setSeq_length, List.length_set, List.length_set]

theorem mkBase_length (old req mymac : List Nat) :
    (mkBase old req mymac).length = old.length := by
  unfold mkBase
  rw [setSeq_length, setSeq_length, setSeq_length]

theorem le16_assemble_ax (base : List Nat) (ax : Nat) (p : List Nat)
    (h : 60 ≤ base.length) (hax : ax < 65536) :
    le16 (assemble base ax p) 58 = ax := by
  unfold assemble le16
  rw [getB_setSeq_lt _ _ _ _ (by omega), getB_setSeq_lt _ _ _ _ (by omega),
    getB_set_ne _ _ _ _ (by omega), getB_set_eq _ _ _ (by omega),
    getB_set_eq _ _ _ (by rw [List.length_set]; omega)]
  exact recompose16 ax hax

theorem getB_assemble_payload (base : List Nat) (ax : Nat) (p : List Nat) (k : Nat)
    (hk : k < p.length) (hl : 60 + k < base.length) :
    getB (assemble base ax p) (60 + k) = getB p k := by
  unfold assemble
  rw [getB_setSeq_at _ _ _ _ hk (by rw [List.length_set, List.length_set]; omega)]

theorem le16_assemble_payload (base : List Nat) (ax : Nat) (p : List Nat) (k : Nat)
    (hk : k + 1 < p.length) (hl : 61 + k < base.length) :
    le16 (assemble base ax p) (60 + k) = le16 p k := by
  unfold le16
  rw [getB_assemble_payload _ _ _ _ (by omega) (by omega)]
  have h2 : 60 + k + 1 = 60 + (k + 1) := by omega
  rw [h2, getB_assemble_payload _ _ _ _ (by omega) (by omega)]

theorem le32_assemble_payload (base : List Nat) (ax : Nat) (p : List Nat) (k : Nat)
    (hk : k + 3 < p.length) (hl : 63 + k < base.length) :
    le32 (assemble base ax p) (60 + k) = le32 p k := by
  unfold le32
  rw [getB_assemble_payload _ _ _ _ (by omega) (by omega)]
  have h1 : 60 + k + 1 = 60 + (k + 1) := by omega
  have h2 : 60 + k + 2 = 60 + (k + 2) := by omega
  have h3 : 60 + k + 3 = 60 + (k + 3) := by omega
  rw [h1, h2, h3, getB_assemble_payload _ _ _ _ (by omega) (by omega),
    getB_assemble_payload _ _ _ _ (by omega) (by omega),
    getB_assemble_payload _ _ _ _ (by omega) (by omega)]

/-- Evaluation of `process` past its frame-level checks: with a long-enough
frame, a cache miss and a known mapped drive, the result is determined by
the query dispatch. -/
theorem process_eq_of_query (answer : Answ) (b : List Nat) (len : Nat) (mymac : List Nat)
    (roots : Nat → Option (List Char)) (fat : Nat → Bool) (env : FsEnv) (db : FsDb)
    (root : List Char)
    (hlen : 60 ≤ len) (hmiss : cachehitTest answer b = false)
    (hdrv1 : 2 ≤ getB b 58 &&& 31) (hdrv2 : getB b 58 &&& 31 ≤ 25)
    (hroot : roots (getB b 58 &&& 31) = some root) :
    process answer b len mymac roots fat env db =
      match processQuery (getB b 59) (b.drop 60) (len - 60) root (getB b 58 &&& 31)
          fat env db with
      | .normal ax pl acts st2 =>
        (.reply (assemble (mkBase answer.frame b mymac) ax pl) (60 + pl.length), acts, st2)
      | .halt c acts st2 => (.ignore c (assemble (mkBase answer.frame b mymac) 0 []), acts, st2)
      | .crash => (.crash, [], db) := by
  unfold process
  rw [if_neg (by omega), hmiss]
  simp only [Bool.false_eq_true, if_false]
  rw [if_neg (by omega), hroot]

theorem le16_le16Bytes (v : Nat) (h : v < 65536) : le16 (le16Bytes v) 0 = v := by
  unfold le16 le16Bytes getB
  simp only [List.getD_cons_zero, List.getD_cons_succ]
  exact recompose16 v h

theorem le32_le32Bytes (v : Nat) (h : v < 4294967296) : le32 (le32Bytes v) 0 = v := by
  unfold le32 le32Bytes getB
  simp only [List.getD_cons_zero, List.getD_cons_succ]
  exact recompose32 v h

/-- C7.  For every DISKSPACE request (opcode 0x0C) on a mapped drive, the
reply is a fresh 66-byte frame whose AX word is 1, whose CX word (bytes
62-63) is 32768 bytes per sector, and whose BX and DX words are the host's
total and free byte counts each first capped at 2^31-1 and then reported as
32-KiB cluster counts (`bytes >> 15`); a host with at least 2 GiB total and
free reports 65535 clusters in both fields. -/
theorem C7_diskspace (answer : Answ) (b : List Nat) (len : Nat) (mymac : List Nat)
    (roots : Nat → Option (List Char)) (fat : Nat → Bool) (env : FsEnv) (db : FsDb)
    (root : List Char)
    (hfr : answer.frame.length = 1520)
    (hlen : 60 ≤ len) (hmiss : cachehitTest answer b = false)
    (hdrv1 : 2 ≤ getB b 58 &&& 31) (hdrv2 : getB b 58 &&& 31 ≤ 25)
    (hroot : roots (getB b 58 &&& 31) = some root)
    (hq : getB b 59 = 12) :
    ∃ f, process answer b len mymac roots fat env db = (.reply f 66, [], db) ∧
      le16 f 58 = 1 ∧
      le16 f 62 = 32768 ∧
      le16 f 60 = (min (diskinfo env root).1 2147483647) >>> 15 ∧
      le16 f 64 = (min (diskinfo env root).2 2147483647) >>> 15 ∧
      (2147483648 ≤ (diskinfo env root).1 → le16 f 60 = 65535) ∧
      (2147483648 ≤ (diskinfo env root).2 → le16 f 64 = 65535) := by
  rw [process_eq_of_query answer b len mymac roots fat env db root hlen hmiss hdrv1 hdrv2 hroot]
  rw [hq]
  simp only [processQuery, if_pos rfl]
  unfold branchDiskspace
  simp only []
  set t := (diskinfo env root).1 with ht
  set fr := (diskinfo env root).2 with hfrr
  have hmin1 : (if t ≥ 2147483647 then 2147483647 else t) = min t 2147483647 := by
    rcases le_or_lt 2147483647 t with h | h
    · rw [if_pos h, min_eq_right h]
    · rw [if_neg (by omega), min_eq_left (by omega)]
  have hmin2 : (if fr ≥ 2147483647 then 2147483647 else fr) = min fr 2147483647 := by
    rcases le_or_lt 2147483647 fr with h | h
    · rw [if_pos h, min_eq_right h]
    · rw [if_neg (by omega), min_eq_left (by omega)]
  rw [hmin1, hmin2]
  set bx := (min t 2147483647 >>> 15) &&& 65535 with hbx
  set dx := (min fr 2147483647 >>> 15) &&& 65535 with hdx
  have hshift1 : min t 2147483647 >>> 15 ≤ 65535 := by
    have h1 : min t 2147483647 ≤ 2147483647 := min_le_right _ _
    rw [Nat.shiftRight_eq_div_pow]
    norm_num
    omega
  have hshift2 : min fr 2147483647 >>> 15 ≤ 65535 := by
    have h1 : min fr 2147483647 ≤ 2147483647 := min_le_right _ _
    rw [Nat.shiftRight_eq_div_pow]
    norm_num
    omega
  have hbxv : bx = min t 2147483647 >>> 15 := by
    rw [hbx, Nat.and_pow_two_sub_one_eq_mod _ 16]
    norm_num
    omega
  have hdxv : dx = min fr 2147483647 >>> 15 := by
    rw [hdx, Nat.and_pow_two_sub_one_eq_mod _ 16]
    norm_num
    omega
  have hbase : (mkBase answer.frame b mymac).length = 1520 := by
    rw [mkBase_length, hfr]
  set pl := le16Bytes bx ++ le16Bytes 32768 ++ le16Bytes dx with hpl
  have hpllen : pl.length = 6 := by simp [hpl, le16Bytes]
  set f := assemble (mkBase answer.frame b mymac) 1 pl with hf
  have hbxle : bx ≤ 65535 := by rw [hbx]; exact Nat.and_le_right
  have hdxle : dx ≤ 65535 := by rw [hdx]; exact Nat.and_le_right
  have hp0 : le16 pl 0 = bx := by
    have e : le16 pl 0 = (bx &&& 255) + 256 * ((bx >>> 8) &&& 255) := rfl
    rw [e]
    exact recompose16 bx (by omega)
  have hp2 : le16 pl 2 = 32768 := by
    have e0 : getB pl 2 = 0 := rfl
    have e1 : getB pl (2 + 1) = 128 := rfl
    rw [le16, e0, e1]
  have hp4 : le16 pl 4 = dx := by
    have e : le16 pl 4 = (dx &&& 255) + 256 * ((dx >>> 8) &&& 255) := rfl
    rw [e]
    exact recompose16 dx (by omega)
  have h60 : le16 f 60 = bx := by
    have he : (60 : Nat) = 60 + 0 := rfl
    rw [hf, he, le16_assemble_payload _ _ _ _ (by omega) (by omega)]
    exact hp0
  have h62 : le16 f 62 = 32768 := by
    have he : (62 : Nat) = 60 + 2 := rfl
    rw [hf, he, le16_assemble_payload _ _ _ _ (by omega) (by omega)]
    exact hp2
  have h64 : le16 f 64 = dx := by
    have he : (64 : Nat) = 60 + 4 := rfl
    rw [hf, he, le16_assemble_payload _ _ _ _ (by omega) (by omega)]
    exact hp4
  refine ⟨f, ?_, ?_, h62, ?_, ?_, ?_, ?_⟩
  · rfl
  · rw [hf]
    exact le16_assemble_ax _ _ _ (by omega) (by norm_num)
  · rw [h60, hbxv]
  · rw [h64, hdxv]
  · intro hbig
    rw [h60, hbxv, min_eq_right (by omega)]
    decide
  · intro hbig
    rw [h64, hdxv, min_eq_right (by omega)]
    decide

set_option maxRecDepth 100000 in
/-- Witness for C7: a concrete DISKSPACE request against a host with
10 GiB total and 4 GiB free reports 65535 clusters in both fields. -/
theorem C7_diskspace_witness :
    ∃ f, process answ0 c7req 60 mymacC rootsC fatC envC7 db0 = (.reply f 66, [], db0) ∧
      le16 f 58 = 1 ∧
      le16 f 62 = 32768 ∧
      le16 f 60 = (min (diskinfo envC7 "/srv".toList).1 2147483647) >>> 15 ∧
      le16 f 64 = (min (diskinfo envC7 "/srv".toList).2 2147483647) >>> 15 ∧
      (2147483648 ≤ (diskinfo envC7 "/srv".toList).1 → le16 f 60 = 65535) ∧
      (2147483648 ≤ (diskinfo envC7 "/srv".toList).2 → le16 f 64 = 65535) :=
  C7_diskspace answ0 c7req 60 mymacC rootsC fatC envC7 db0 "/srv".toList
    (by decide) (by decide) (by decide) (by decide) (by decide) (by decide) (by decide)

theorem le16_drop (l : List Nat) (n k : Nat) : le16 (l.drop n) k = le16 l (n + k) := by
  unfold le16
  rw [getB_drop, getB_drop]
  have h2 : n + (k + 1) = n + k + 1 := by omega
  rw [h2]

theorem le32_drop (l : List Nat) (n k : Nat) : le32 (l.drop n) k = le32 l (n + k) := by
  unfold le32
  rw [getB_drop, getB_drop, getB_drop, getB_drop]
  have h1 : n + (k + 1) = n + k + 1 := by omega
  have h2 : n + (k + 2) = n + k + 2 := by omega
  have h3 : n + (k + 3) = n + k + 3 := by omega
  rw [h1, h2, h3]

theorem getB_lt_256 (b : List Nat) (hby : ∀ x ∈ b, x < 256) (i : Nat) : getB b i < 256 := by
  unfold getB
  rcases Nat.lt_or_ge i b.length with h | h
  · rw [List.getD_eq_getElem?_getD, List.getElem?_eq_getElem h]
    exact hby _ (List.getElem_mem h)
  · rw [List.getD_eq_default _ _ h]
    omega

theorem le32_lt (b : List Nat) (hby : ∀ x ∈ b, x < 256) (i : Nat) :
    le32 b i < 4294967296 := by
  unfold le32
  have h0 := getB_lt_256 b hby i
  have h1 := getB_lt_256 b hby (i + 1)
  have h2 := getB_lt_256 b hby (i + 2)
  have h3 := getB_lt_256 b hby (i + 3)
  omega

set_option maxRecDepth 100000 in
/-- C8: For every SKFMEND request (opcode 0x21) with a valid file id, the
returned absolute offset equals clamp(fileSize + min(0, offset), >= 0): a
positive signed offset is treated as 0, and a negative offset whose magnitude
exceeds the file size yields 0; with an invalid file id the reply is AX=2. -/
theorem C8_skfmend (answer : Answ) (b : List Nat) (len : Nat) (mymac : List Nat)
    (roots : Nat → Option (List Char)) (fat : Nat → Bool) (env : FsEnv) (db : FsDb)
    (root : List Char)
    (hfr : answer.frame.length = 1520)
    (hlen : len = 66) (hmiss : cachehitTest answer b = false)
    (hdrv1 : 2 ≤ getB b 58 &&& 31) (hdrv2 : getB b 58 &&& 31 ≤ 25)
    (hroot : roots (getB b 58 &&& 31) = some root)
    (hq : getB b 59 = 33)
    (hby : ∀ x ∈ b, x < 256) :
    (∀ fname stt, sstoitem db (le16 b 64) = some fname → env.statOf fname = some stt →
      stt.isDir = false → stt.size < 2147483648 →
      ∃ f, process answer b len mymac roots fat env db = (.reply f 64, [], db) ∧
        le16 f 58 = 0 ∧
        (le32 f 60 : Int) =
          max 0 ((stt.size : Int) +
            min (if le32 b 60 < 2147483648 then (le32 b 60 : Int)
                 else (le32 b 60 : Int) - 4294967296) 0)) ∧
    (sstoitem db (le16 b 64) = none →
      ∃ f, process answer b len mymac roots fat env db = (.reply f 60, [], db) ∧
        le16 f 58 = 2) := by
  have hbase : (mkBase answer.frame b mymac).length = 1520 := by
    rw [mkBase_length, hfr]
  have hpq : processQuery (getB b 59) (b.drop 60) (len - 60) root (getB b 58 &&& 31)
      fat env db = branchSkfmend env db (b.drop 60) := by
    rw [hq, hlen]
    norm_num [processQuery]
  have hstep := process_eq_of_query answer b len mymac roots fat env db root
    (by omega) hmiss hdrv1 hdrv2 hroot
  rw [hpq] at hstep
  constructor
  · intro fname stt hname hstat hdir hsz
    have hle32 : le32 b 60 < 4294967296 := le32_lt b hby 60
    have hsize : getfopsize env db (le16 b 64) = (stt.size : Int) := by
      simp only [getfopsize, hname, getitemattr, hstat, hdir]
      norm_num
    have hbr2 : branchSkfmend env db (b.drop 60) =
        (let offs0 : Int := if le32 b 60 < 2147483648 then (le32 b 60 : Int)
                            else (le32 b 60 : Int) - 4294967296
         let offs1 : Int := if offs0 > 0 then 0 else offs0
         let s : Int := (offs1 + (stt.size : Int)) % 4294967296
         let offs2 : Int := if s < 2147483648 then s else s - 4294967296
         let offs3 : Int := if offs2 < 0 then 0 else offs2
         BranchOut.normal 0 (le32Bytes offs3.toNat) [] db) := by
      unfold branchSkfmend
      rw [le16_drop, le32_drop]
      norm_num
      rw [hsize]
      rw [if_neg (by omega)]
    rw [hbr2] at hstep
    simp only [] at hstep
    set offs0 : Int := (if le32 b 60 < 2147483648 then (le32 b 60 : Int)
        else (le32 b 60 : Int) - 4294967296) with hoffs0
    set s : Int := ((if offs0 > 0 then 0 else offs0) + (stt.size : Int)) % 4294967296 with hs
    set offs3 : Int := (if (if s < 2147483648 then s else s - 4294967296) < 0 then 0
        else (if s < 2147483648 then s else s - 4294967296)) with hoffs3
    have hb0 : -2147483648 ≤ offs0 ∧ offs0 < 2147483648 := by
      rw [hoffs0]
      split_ifs with h1
      · omega
      · omega
    have hval : offs3 = max 0 ((stt.size : Int) +
        min offs0 0) ∧ 0 ≤ offs3 ∧ offs3 < 2147483648 := by
      rw [hoffs3, hs]
      split_ifs <;> omega
    refine ⟨assemble (mkBase answer.frame b mymac) 0 (le32Bytes offs3.toNat), hstep, ?_, ?_⟩
    · exact le16_assemble_ax _ _ _ (by omega) (by norm_num)
    · have he60 : (60 : Nat) = 60 + 0 := rfl
      rw [he60, le32_assemble_payload _ _ _ _ (by simp [le32Bytes]) (by omega),
        le32_le32Bytes _ (by omega)]
      rw [Int.toNat_of_nonneg hval.2.1, hval.1]
  · intro hnone
    have hbr : branchSkfmend env db (b.drop 60) = BranchOut.normal 2 [] [] db := by
      unfold branchSkfmend
      rw [le16_drop]
      norm_num
      rw [getfopsize, hnone]
      norm_num
    rw [hbr] at hstep
    refine ⟨assemble (mkBase answer.frame b mymac) 2 [], hstep, ?_⟩
    exact le16_assemble_ax _ _ _ (by omega) (by norm_num)

set_option maxRecDepth 1000000 in
theorem C8_skfmend_witness :
    (∃ f, process answ0 c8reqV 66 mymacC rootsC fatC envC8 dbFile =
        (.reply f 64, [], dbFile) ∧ le16 f 58 = 0 ∧ (le32 f 60 : Int) = 900) ∧
    (∃ f, process answ0 c8reqS 66 mymacC rootsC fatC envC8 dbFile =
        (.reply f 60, [], dbFile) ∧ le16 f 58 = 2) := by
  have H := C8_skfmend answ0 c8reqV 66 mymacC rootsC fatC envC8 dbFile
    "/srv".toList (by decide) rfl (by decide) (by decide) (by decide) (by decide)
    (by decide) (by decide)
  have H2 := C8_skfmend answ0 c8reqS 66 mymacC rootsC fatC envC8 dbFile
    "/srv".toList (by decide) rfl (by decide) (by decide) (by decide) (by decide)
    (by decide) (by decide)
  constructor
  · obtain ⟨f, h1, h2, h3⟩ := H.1 "/srv/file.bin".toList ⟨false, 1000, 123⟩
      (by decide) rfl rfl (by decide)
    refine ⟨f, h1, h2, ?_⟩
    rw [h3]
    decide
  · exact H2.2 (by decide)
set_option maxRecDepth 100000 in
/-- C10: For every WRITEFIL request (opcode 0x09) with an empty byte payload
and a valid file id, the server replies AX=0 with written=0 regardless of the
host environment (the code never reads the result of the truncate call), so a
failed truncation is indistinguishable on the wire from a successful one. -/
theorem C10_writefil_empty (answer : Answ) (b : List Nat) (mymac : List Nat)
    (roots : Nat → Option (List Char)) (fat : Nat → Bool) (env1 env2 : FsEnv)
    (db : FsDb) (root : List Char) (fname : List Char)
    (hfr : answer.frame.length = 1520)
    (hmiss : cachehitTest answer b = false)
    (hdrv1 : 2 ≤ getB b 58 &&& 31) (hdrv2 : getB b 58 &&& 31 ≤ 25)
    (hroot : roots (getB b 58 &&& 31) = some root)
    (hq : getB b 59 = 9)
    (hname : sstoitem db (le16 b 64) = some fname) :
    process answer b 66 mymac roots fat env1 db =
      process answer b 66 mymac roots fat env2 db ∧
    ∃ f, process answer b 66 mymac roots fat env1 db =
        (.reply f 62, [.truncateA fname (le32 b 60)], db) ∧
      le16 f 58 = 0 ∧ le16 f 60 = 0 := by
  have hbase : (mkBase answer.frame b mymac).length = 1520 := by
    rw [mkBase_length, hfr]
  have key : ∀ env : FsEnv, process answer b 66 mymac roots fat env db =
      (.reply (assemble (mkBase answer.frame b mymac) 0 (le16Bytes 0)) 62,
       [.truncateA fname (le32 b 60)], db) := by
    intro env
    have hstep := process_eq_of_query answer b 66 mymac roots fat env db root
      (by omega) hmiss hdrv1 hdrv2 hroot
    have hpq : processQuery (getB b 59) (b.drop 60) (66 - 60) root
        (getB b 58 &&& 31) fat env db = branchWritefil env db (b.drop 60) 6 := by
      rw [hq]
      norm_num [processQuery]
    rw [hpq] at hstep
    have hbr : branchWritefil env db (b.drop 60) 6 =
        .normal 0 (le16Bytes 0) [.truncateA fname (le32 b 60)] db := by
      unfold branchWritefil writefile
      rw [le16_drop]
      norm_num
      rw [hname]
      norm_num
      rw [le32_drop]
    rw [hbr] at hstep
    exact hstep
  refine ⟨(key env1).trans (key env2).symm,
    assemble (mkBase answer.frame b mymac) 0 (le16Bytes 0), key env1, ?_, ?_⟩
  · exact le16_assemble_ax _ _ _ (by omega) (by norm_num)
  · have he : (60 : Nat) = 60 + 0 := rfl
    rw [he, le16_assemble_payload _ _ _ _ (by simp [le16Bytes]) (by omega),
      le16_le16Bytes _ (by norm_num)]

set_option maxRecDepth 1000000 in
theorem C10_writefil_empty_witness :
    (process answ0 c10req 66 mymacC rootsC fatC envD dbFile =
       process answ0 c10req 66 mymacC rootsC fatC envC8 dbFile) ∧
    ∃ f, process answ0 c10req 66 mymacC rootsC fatC envD dbFile =
        (.reply f 62, [.truncateA "/srv/file.bin".toList 77], dbFile) ∧
      le16 f 58 = 0 ∧ le16 f 60 = 0 := by
  have H := C10_writefil_empty answ0 c10req mymacC rootsC fatC envD envC8 dbFile
    "/srv".toList "/srv/file.bin".toList (by decide) (by decide) (by decide)
    (by decide) (by decide) (by decide) (by decide)
  obtain ⟨h1, f, h2, h3, h4⟩ := H
  refine ⟨h1, f, ?_, h3, h4⟩
  have he : le32 c10req 60 = 77 := by decide
  rw [← he]
  exact h2

theorem getElem?_eq_of_getB (l1 l2 : List Nat) (hlen : l1.length = l2.length) (k : Nat)
    (h : getB l1 k = getB l2 k) : l1[k]? = l2[k]? := by
  by_cases hk : k < l1.length
  · have hk2 : k < l2.length := by omega
    rw [List.getElem?_eq_getElem hk, List.getElem?_eq_getElem hk2]
    unfold getB at h
    rw [List.getD_eq_getElem?_getD, List.getD_eq_getElem?_getD,
      List.getElem?_eq_getElem hk, List.getElem?_eq_getElem hk2] at h
    simpa using h
  · rw [List.getElem?_eq_none (by omega), List.getElem?_eq_none (by omega)]

theorem take_eq_of_getB (l1 l2 : List Nat) (n : Nat) (h1 : n ≤ l1.length)
    (h2 : l2.length = n) (h : ∀ k, k < n → getB l1 k = getB l2 k) :
    l1.take n = l2 := by
  apply List.ext_getElem?
  intro k
  rw [List.getElem?_take]
  by_cases hk : k < n
  · rw [if_pos hk]
    have hk1 : k < l1.length := by omega
    have hk2 : k < l2.length := by omega
    rw [List.getElem?_eq_getElem hk1, List.getElem?_eq_getElem hk2]
    have hv := h k hk
    unfold getB at hv
    rw [List.getD_eq_getElem?_getD, List.getD_eq_getElem?_getD,
      List.getElem?_eq_getElem hk1, List.getElem?_eq_getElem hk2] at hv
    simpa using hv
  · rw [if_neg hk, List.getElem?_eq_none (by omega)]

theorem set_id (l : List Nat) (i v : Nat) (hi : i < l.length) (hv : getB l i = v) :
    l.set i v = l := by
  apply List.ext_getElem?
  intro k
  by_cases hk : i = k
  · subst hk
    rw [List.getElem?_set_self hi, List.getElem?_eq_getElem hi]
    unfold getB at hv
    rw [List.getD_eq_getElem?_getD, List.getElem?_eq_getElem hi] at hv
    simp at hv
    rw [hv]
  · rw [List.getElem?_set_ne hk]

theorem or128_eq_self (x : Nat) (hx : x < 256) (h7 : x >>> 7 ≠ 0) : x ||| 128 = x := by
  have hdiv : x / 128 = 1 := by
    rw [Nat.shiftRight_eq_div_pow] at h7
    norm_num at h7
    omega
  apply Nat.eq_of_testBit_eq
  intro j
  rw [Nat.testBit_or]
  by_cases hj : j = 7
  · subst hj
    have hb : x.testBit 7 = true := by
      rw [Nat.testBit_to_div_mod]
      norm_num [hdiv]
    simp [hb]
  · have hb : (128 : Nat).testBit j = false := by
      have he : (128 : Nat) = 2 ^ 7 := by norm_num
      rw [he, Nat.testBit_two_pow]
      simp [Ne.symm hj]
    simp [hb]

theorem getD_set_self {α : Type} (l : List α) (i : Nat) (v d : α) (h : i < l.length) :
    (l.set i v).getD i d = v := by
  rw [List.getD_eq_getElem?_getD, List.getElem?_set_self h]
  rfl

theorem validate_some_inv (mymac b : List Nat) (len L : Nat) (fl : Bool)
    (h : validate mymac b len = some (L, fl)) :
    60 ≤ L ∧ fl = (getB b 56 >>> 7 != 0) := by
  unfold validate at h
  split at h
  · exact absurd h (by simp)
  split at h
  · exact absurd h (by simp)
  split at h
  · exact absurd h (by simp)
  split at h
  · exact absurd h (by simp)
  simp only [] at h
  split at h
  · exact absurd h (by simp)
  rename_i h1 h2 h3 h4 h5
  by_cases hp : 0 < le16 b 52
  · rw [if_pos hp] at h
    split at h
    · exact absurd h (by simp)
    rw [Option.some_inj, Prod.mk.injEq] at h
    obtain ⟨hL, hfl⟩ := h
    push_neg at h5
    have h6 := h5 hp
    exact ⟨by omega, hfl.symm⟩
  · rw [if_neg hp] at h
    split at h
    · exact absurd h (by simp)
    rw [Option.some_inj, Prod.mk.injEq] at h
    obtain ⟨hL, hfl⟩ := h
    exact ⟨by omega, hfl.symm⟩
theorem fce_lt (cache : List Answ) (mac : List Nat) :
    ∀ (fuel i oldest : Nat), oldest < 16 → i + fuel ≤ 16 →
      fce cache mac i oldest fuel < 16 := by
  intro fuel
  induction fuel with
  | zero => intro i oldest ho _; exact ho
  | succ n ih =>
    intro i oldest ho hi
    unfold fce
    split
    · omega
    · apply ih
      · split
        · omega
        · exact ho
      · omega

theorem findcacheentry_lt (cache : List Answ) (mac : List Nat) :
    findcacheentry cache mac < 16 :=
  fce_lt cache mac 16 0 0 (by omega) (by omega)

theorem mutate_length (f : List Nat) (L : Nat) (fl : Bool) :
    (mutate f L fl).length = f.length := by
  unfold mutate
  split <;> simp [List.length_set]

theorem getB_mutate_lo (f : List Nat) (L : Nat) (fl : Bool) (k : Nat) (hk : k < 52) :
    getB (mutate f L fl) k = getB f k := by
  unfold mutate
  split <;>
    rw [getB_set_ne _ _ _ _ (by omega), getB_set_ne _ _ _ _ (by omega),
      getB_set_ne _ _ _ _ (by omega), getB_set_ne _ _ _ _ (by omega),
      getB_set_ne _ _ _ _ (by omega)]

theorem getB_mutate_hi (f : List Nat) (L : Nat) (fl : Bool) (k : Nat) (hk : 56 < k) :
    getB (mutate f L fl) k = getB f k := by
  unfold mutate
  split <;>
    rw [getB_set_ne _ _ _ _ (by omega), getB_set_ne _ _ _ _ (by omega),
      getB_set_ne _ _ _ _ (by omega), getB_set_ne _ _ _ _ (by omega),
      getB_set_ne _ _ _ _ (by omega)]

theorem getB_mkBase_hdr (old req my : List Nat) (k : Nat) (h1 : 12 ≤ k) (h2 : k < 60)
    (hreq : 60 ≤ req.length) (hold : 60 ≤ old.length) :
    getB (mkBase old req my) k = getB req k := by
  unfold mkBase
  rw [getB_setSeq_ge _ _ _ _ (by have := List.length_take_le 6 my; omega),
    getB_setSeq_ge _ _ _ _ (by have := List.length_take_le 6 (req.drop 6); omega)]
  have hk : k = 0 + k := by omega
  rw [hk, getB_setSeq_at _ _ _ _ (by rw [List.length_take]; omega) (by omega)]
  rw [← hk]
  exact getB_take req 60 k (by omega)

theorem getB_mkBase_mac (old req my : List Nat) (k : Nat) (hk : k < 6)
    (hreq : 12 ≤ req.length) (hold : 60 ≤ old.length) :
    getB (mkBase old req my) k = getB ((req.drop 6).take 6) k := by
  unfold mkBase
  rw [getB_setSeq_lt _ _ _ _ (by omega)]
  have he : k = 0 + k := by omega
  rw [he, getB_setSeq_at _ _ _ _
    (by rw [List.length_take, List.length_drop]; omega)
    (by rw [setSeq_length]; omega)]
  rw [← he]

theorem getB_assemble_lo (base : List Nat) (ax : Nat) (pl : List Nat) (k : Nat)
    (hk : k < 58) :
    getB (assemble base ax pl) k = getB base k := by
  unfold assemble
  rw [getB_setSeq_lt _ _ _ _ (by omega), getB_set_ne _ _ _ _ (by omega),
    getB_set_ne _ _ _ _ (by omega)]

theorem serverStep_eq (mymac : List Nat) (roots : Nat → Option (List Char))
    (fat : Nat → Bool) (env : FsEnv) (cache : List Answ) (db : FsDb)
    (buff : List Nat) (len now L : Nat) (fl : Bool)
    (hv : validate mymac buff len = some (L, fl)) :
    serverStep mymac roots fat env cache db buff len now =
      (match process (cache.getD (findcacheentry cache ((buff.drop 6).take 6)) default)
          buff L mymac roots fat env db with
       | (.crash, _, _) => .crashed
       | (.ignore c f, acts, db2) =>
         .ok (cache.set (findcacheentry cache ((buff.drop 6).take 6))
           ⟨f, (cache.getD (findcacheentry cache ((buff.drop 6).take 6)) default).timestamp, 0⟩)
           db2 none acts (.ignore c f)
       | (.cachehit L2, acts, db2) =>
         .ok (cache.set (findcacheentry cache ((buff.drop 6).take 6))
           ⟨mutate (cache.getD (findcacheentry cache ((buff.drop 6).take 6)) default).frame L2 fl, now, L2⟩)
           db2
           (some ((mutate (cache.getD (findcacheentry cache ((buff.drop 6).take 6)) default).frame L2 fl).take L2))
           acts (.cachehit L2)
       | (.reply f L2, acts, db2) =>
         .ok (cache.set (findcacheentry cache ((buff.drop 6).take 6)) ⟨mutate f L2 fl, now, L2⟩)
           db2 (some ((mutate f L2 fl).take L2)) acts (.reply f L2)) := by
  unfold serverStep
  rw [hv]

theorem process_reply_inv (answer : Answ) (b : List Nat) (len : Nat) (mymac : List Nat)
    (roots : Nat → Option (List Char)) (fat : Nat → Bool) (env : FsEnv) (db : FsDb)
    (f : List Nat) (L : Nat) (acts : List HostAct) (db2 : FsDb)
    (h : process answer b len mymac roots fat env db = (.reply f L, acts, db2)) :
    ∃ ax pl, f = assemble (mkBase answer.frame b mymac) ax pl ∧ L = 60 + pl.length := by
  unfold process at h
  split at h
  · exact absurd h (by simp)
  split at h
  · exact absurd h (by simp)
  simp only [] at h
  split at h
  · exact absurd h (by simp)
  split at h
  · exact absurd h (by simp)
  split at h
  case _ ax pl acts2 st2 hq =>
    rw [Prod.mk.injEq, Prod.mk.injEq] at h
    obtain ⟨hp, _, _⟩ := h
    rw [ProcOut.reply.injEq] at hp
    exact ⟨ax, pl, hp.1.symm, hp.2.symm⟩
  case _ => exact absurd h (by simp)
  case _ => exact absurd h (by simp)
theorem and127_idem (x : Nat) : x &&& 127 &&& 127 = x &&& 127 := by
  rw [Nat.and_assoc]
  norm_num

theorem or128_idem (x : Nat) : x ||| 128 ||| 128 = x ||| 128 := by
  rw [Nat.or_assoc]
  norm_num

theorem getB_mutate_52 (f : List Nat) (L : Nat) (fl : Bool) (h : 52 < f.length) :
    getB (mutate f L fl) 52 = L &&& 255 := by
  unfold mutate
  split <;>
    rw [getB_set_ne _ _ _ _ (by omega), getB_set_ne _ _ _ _ (by omega),
      getB_set_ne _ _ _ _ (by omega), getB_set_ne _ _ _ _ (by omega),
      getB_set_eq _ _ _ (by omega)]

theorem getB_mutate_53 (f : List Nat) (L : Nat) (fl : Bool) (h : 53 < f.length) :
    getB (mutate f L fl) 53 = (L >>> 8) &&& 255 := by
  unfold mutate
  split <;>
    rw [getB_set_ne _ _ _ _ (by omega), getB_set_ne _ _ _ _ (by omega),
      getB_set_ne _ _ _ _ (by omega),
      getB_set_eq _ _ _ (by rw [List.length_set]; omega)]

theorem getB_mutate_54_false (f : List Nat) (L : Nat) (h : 54 < f.length) :
    getB (mutate f L false) 54 = 0 := by
  unfold mutate
  rw [if_neg (by decide)]
  rw [getB_set_ne _ _ _ _ (by omega), getB_set_ne _ _ _ _ (by omega),
    getB_set_eq _ _ _ (by rw [List.length_set, List.length_set]; omega)]

theorem getB_mutate_55_false (f : List Nat) (L : Nat) (h : 55 < f.length) :
    getB (mutate f L false) 55 = 0 := by
  unfold mutate
  rw [if_neg (by decide)]
  rw [getB_set_ne _ _ _ _ (by omega),
    getB_set_eq _ _ _ (by rw [List.length_set, List.length_set, List.length_set]; omega)]

theorem getB_mutate_54_true (f : List Nat) (L : Nat) (h : 54 < f.length) :
    getB (mutate f L true) 54 =
      bsdsum (((((f.set 52 (L &&& 255)).set 53 ((L >>> 8) &&& 255))).drop 56).take (L - 56))
        &&& 255 := by
  unfold mutate
  rw [if_pos rfl]
  simp only []
  rw [getB_set_ne _ _ _ _ (by omega), getB_set_ne _ _ _ _ (by omega),
    getB_set_eq _ _ _ (by rw [List.length_set, List.length_set]; omega)]

theorem getB_mutate_55_true (f : List Nat) (L : Nat) (h : 55 < f.length) :
    getB (mutate f L true) 55 =
      (bsdsum (((((f.set 52 (L &&& 255)).set 53 ((L >>> 8) &&& 255))).drop 56).take (L - 56))
        >>> 8) &&& 255 := by
  unfold mutate
  rw [if_pos rfl]
  simp only []
  rw [getB_set_ne _ _ _ _ (by omega),
    getB_set_eq _ _ _ (by rw [List.length_set, List.length_set, List.length_set]; omega)]

theorem getB_mutate_56 (f : List Nat) (L : Nat) (fl : Bool) (h : 56 < f.length) :
    getB (mutate f L fl) 56 =
      if fl then getB f 56 ||| 128 else getB f 56 &&& 127 := by
  cases fl with
  | false =>
    rw [if_neg (by decide)]
    unfold mutate
    rw [if_neg (by decide)]
    rw [getB_set_eq _ _ _
      (by rw [List.length_set, List.length_set, List.length_set, List.length_set]; omega)]
    rw [getB_set_ne _ _ _ _ (by omega), getB_set_ne _ _ _ _ (by omega)]
  | true =>
    rw [if_pos rfl]
    unfold mutate
    rw [if_pos rfl]
    simp only []
    rw [getB_set_eq _ _ _
      (by rw [List.length_set, List.length_set, List.length_set, List.length_set]; omega)]
    rw [getB_set_ne _ _ _ _ (by omega), getB_set_ne _ _ _ _ (by omega)]

theorem mutate_fix_false (x : List Nat) (L : Nat) (hx : 60 ≤ x.length)
    (h52 : getB x 52 = L &&& 255) (h53 : getB x 53 = (L >>> 8) &&& 255)
    (h54 : getB x 54 = 0) (h55 : getB x 55 = 0)
    (h56 : getB x 56 &&& 127 = getB x 56) :
    mutate x L false = x := by
  have hs1 : x.set 52 (L &&& 255) = x := set_id x 52 _ (by omega) h52
  have hs2 : x.set 53 ((L >>> 8) &&& 255) = x := set_id x 53 _ (by omega) h53
  unfold mutate
  rw [hs1, hs2]
  rw [if_neg (by decide)]
  rw [set_id x 54 _ (by omega) h54, set_id x 55 _ (by omega) h55,
    set_id x 56 _ (by omega) h56.symm]

theorem mutate_fix_true (x : List Nat) (L : Nat) (hx : 60 ≤ x.length)
    (h52 : getB x 52 = L &&& 255) (h53 : getB x 53 = (L >>> 8) &&& 255)
    (h54 : getB x 54 = bsdsum ((x.drop 56).take (L - 56)) &&& 255)
    (h55 : getB x 55 = (bsdsum ((x.drop 56).take (L - 56)) >>> 8) &&& 255)
    (h56 : getB x 56 ||| 128 = getB x 56) :
    mutate x L true = x := by
  have hs1 : x.set 52 (L &&& 255) = x := set_id x 52 _ (by omega) h52
  have hs2 : x.set 53 ((L >>> 8) &&& 255) = x := set_id x 53 _ (by omega) h53
  unfold mutate
  rw [hs1, hs2]
  rw [if_pos rfl]
  simp only []
  rw [set_id x 54 _ (by omega) h54, set_id x 55 _ (by omega) h55,
    set_id x 56 _ (by omega) h56.symm]

theorem mutate_idem (f : List Nat) (L : Nat) (fl : Bool) (hf : 60 ≤ f.length)
    (hfl : fl = true → getB f 56 ||| 128 = getB f 56) :
    mutate (mutate f L fl) L fl = mutate f L fl := by
  have hml : (mutate f L fl).length = f.length := mutate_length f L fl
  cases fl with
  | false =>
    apply mutate_fix_false _ _ (by rw [mutate_length]; omega)
    · rw [getB_mutate_52 f L false (by omega)]
    · rw [getB_mutate_53 f L false (by omega)]
    · rw [getB_mutate_54_false f L (by omega)]
    · rw [getB_mutate_55_false f L (by omega)]
    · rw [getB_mutate_56 f L false (by omega), if_neg (by decide)]
      exact and127_idem (getB f 56)
  | true =>
    have hreg : (mutate f L true).drop 56 =
        ((f.set 52 (L &&& 255)).set 53 ((L >>> 8) &&& 255)).drop 56 := by
      apply List.ext_getElem?
      intro k
      rw [List.getElem?_drop, List.getElem?_drop]
      apply getElem?_eq_of_getB
      · rw [mutate_length, List.length_set, List.length_set]
      · by_cases hk : k = 0
        · subst hk
          simp only [Nat.add_zero]
          rw [getB_mutate_56 f L true (by omega), if_pos rfl, hfl rfl]
          rw [getB_set_ne _ _ _ _ (by omega), getB_set_ne _ _ _ _ (by omega)]
        · rw [getB_mutate_hi f L true (56 + k) (by omega)]
          rw [getB_set_ne _ _ _ _ (by omega), getB_set_ne _ _ _ _ (by omega)]
    apply mutate_fix_true _ _ (by rw [mutate_length]; omega)
    · rw [getB_mutate_52 f L true (by omega)]
    · rw [getB_mutate_53 f L true (by omega)]
    · rw [getB_mutate_54_true f L (by omega), hreg]
    · rw [getB_mutate_55_true f L (by omega), hreg]
    · rw [getB_mutate_56 f L true (by omega), if_pos rfl, hfl rfl]
      exact hfl rfl
set_option maxRecDepth 100000 in
/-- C3 (amended): when the first of two same-MAC same-sequence requests was a
dispatched (cache-missing) query answered with a fresh reply, the cache entry
for that client is reselected, and both requests carry the same checksum
flag, the second request is served from the reply cache (the dispatcher is
not invoked, no host action runs) and the frame sent is byte-identical to
the one sent for the first request.  The claim as frozen omits the equal
checksum-flag condition; the counterexample theorem below exhibits two
same-MAC same-sequence requests whose replies differ in bytes 54-56. -/
theorem C3_retransmit (mymac : List Nat) (roots : Nat → Option (List Char))
    (fat : Nat → Bool) (env : FsEnv) (cache : List Answ) (db : FsDb)
    (b1 b2 : List Nat) (len1 len2 now1 now2 L1 L2 : Nat) (flag1 flag2 : Bool)
    (c1 : List Answ) (db1 : FsDb) (s1 : List Nat) (acts1 : List HostAct)
    (f : List Nat) (RL : Nat)
    (hcl : cache.length = 16)
    (hcfr : ∀ a ∈ cache, a.frame.length = 1520)
    (hb1 : 60 ≤ b1.length)
    (hby1 : ∀ x ∈ b1, x < 256)
    (hv1 : validate mymac b1 len1 = some (L1, flag1))
    (hv2 : validate mymac b2 len2 = some (L2, flag2))
    (hflag : flag2 = flag1)
    (hstep1 : serverStep mymac roots fat env cache db b1 len1 now1 =
      .ok c1 db1 (some s1) acts1 (.reply f RL))
    (hmac : (b2.drop 6).take 6 = (b1.drop 6).take 6)
    (hseq : getB b2 57 = getB b1 57)
    (hsel : findcacheentry c1 ((b2.drop 6).take 6) =
      findcacheentry cache ((b1.drop 6).take 6)) :
    (serverStep mymac roots fat env c1 db1 b2 len2 now2).poutOf =
      some (.cachehit RL) ∧
    (serverStep mymac roots fat env c1 db1 b2 len2 now2).actsOf = [] ∧
    (serverStep mymac roots fat env c1 db1 b2 len2 now2).sentOf = some s1 ∧
    (serverStep mymac roots fat env cache db b1 len1 now1).sentOf = some s1 := by
  obtain ⟨hL1, hflag1⟩ := validate_some_inv mymac b1 len1 L1 flag1 hv1
  obtain ⟨hL2, _⟩ := validate_some_inv mymac b2 len2 L2 flag2 hv2
  have hi1 : findcacheentry cache ((b1.drop 6).take 6) < 16 :=
    findcacheentry_lt cache ((b1.drop 6).take 6)
  rw [serverStep_eq mymac roots fat env cache db b1 len1 now1 L1 flag1 hv1] at hstep1
  rcases hproc : process (cache.getD (findcacheentry cache ((b1.drop 6).take 6)) default)
      b1 L1 mymac roots fat env db with ⟨pout, acts2, db2⟩
  rw [hproc] at hstep1
  cases pout with
  | crash => exact StepRes.noConfusion hstep1
  | ignore c fx =>
    injection hstep1 with _ _ h3 _ _
    exact Option.noConfusion h3
  | cachehit Lx =>
    injection hstep1 with _ _ _ _ h5
    exact ProcOut.noConfusion h5
  | reply fx Lx =>
    injection hstep1 with hc hdb hs ha h5
    injection h5 with hfx hLx
    subst hfx
    subst hLx
    obtain ⟨ax, pl, hfE, hRL⟩ := process_reply_inv _ _ _ _ _ _ _ _ _ _ _ _ hproc
    have he1len : (cache.getD (findcacheentry cache ((b1.drop 6).take 6)) default).frame.length
        = 1520 := by
      have hmem : cache.getD (findcacheentry cache ((b1.drop 6).take 6)) default ∈ cache := by
        rw [List.getD_eq_getElem?_getD, List.getElem?_eq_getElem (by omega)]
        exact List.getElem_mem _
      exact hcfr _ hmem
    have hflen : fx.length = 1520 := by
      rw [hfE, assemble_length, mkBase_length, he1len]
    have hF56 : getB fx 56 = getB b1 56 := by
      rw [hfE, getB_assemble_lo _ _ _ _ (by omega),
        getB_mkBase_hdr _ _ _ _ (by omega) (by omega) (by omega) (by omega)]
    have hFor : flag1 = true → getB fx 56 ||| 128 = getB fx 56 := by
      intro hf1
      rw [hF56]
      apply or128_eq_self _ (getB_lt_256 b1 hby1 56)
      have h7 := hflag1
      rw [hf1] at h7
      intro hz
      rw [hz] at h7
      simp at h7
    have hidem : mutate (mutate fx Lx flag1) Lx flag1 = mutate fx Lx flag1 :=
      mutate_idem fx Lx flag1 (by omega) hFor
    have hmlen : (mutate fx Lx flag1).length = 1520 := by
      rw [mutate_length, hflen]
    have hm57 : getB (mutate fx Lx flag1) 57 = getB b1 57 := by
      rw [getB_mutate_hi _ _ _ _ (by omega), hfE, getB_assemble_lo _ _ _ _ (by omega),
        getB_mkBase_hdr _ _ _ _ (by omega) (by omega) (by omega) (by omega)]
    have hm6 : (mutate fx Lx flag1).take 6 = (b1.drop 6).take 6 := by
      apply take_eq_of_getB _ _ 6 (by omega)
        (by rw [List.length_take, List.length_drop]; omega)
      intro k hk
      rw [getB_mutate_lo _ _ _ _ (by omega), hfE, getB_assemble_lo _ _ _ _ (by omega),
        getB_mkBase_mac _ _ _ _ (by omega) (by omega) (by omega)]
    have hch : cachehitTest ⟨mutate fx Lx flag1, now1, Lx⟩ b2 = true := by
      unfold cachehitTest
      simp only []
      rw [hm57, hm6, hseq, hmac]
      simp only [beq_self_eq_true, Bool.true_and]
      have hnz : Lx ≠ 0 := by omega
      simp [hnz]
    have he2 : c1.getD (findcacheentry c1 ((b2.drop 6).take 6)) default
        = ⟨mutate fx Lx flag1, now1, Lx⟩ := by
      rw [hsel, ← hc]
      exact getD_set_self _ _ _ _ (by omega)
    have hproc2 : process ⟨mutate fx Lx flag1, now1, Lx⟩ b2 L2 mymac roots fat env db1 =
        (.cachehit Lx, [], db1) := by
      unfold process
      rw [if_neg (by omega), hch]
      rw [if_pos rfl]
    have hstep2 := serverStep_eq mymac roots fat env c1 db1 b2 len2 now2 L2 flag2 hv2
    rw [he2, hproc2] at hstep2
    simp only [] at hstep2
    subst hflag
    rw [hidem] at hstep2
    rw [hstep2]
    refine ⟨rfl, rfl, ?_, ?_⟩
    · unfold StepRes.sentOf
      exact hs
    · rw [serverStep_eq mymac roots fat env cache db b1 len1 now1 L1 flag2 hv1, hproc]
      unfold StepRes.sentOf
      exact hs
set_option maxRecDepth 1000000 in
theorem C3_flag_counterexample :
    (c3req2.drop 6).take 6 = (c3req1.drop 6).take 6 ∧
    getB c3req2 57 = getB c3req1 57 ∧
    c3step2.poutOf = some (.cachehit 60) ∧
    c3step2.sentOf ≠ c3step1.sentOf := by
  decide

set_option maxRecDepth 1000000 in
theorem C3_retransmit_witness :
    (serverStep mymacC rootsC fatC envD c3cache1 db0 c3req1 60 101).poutOf =
      some (.cachehit 60) ∧
    (serverStep mymacC rootsC fatC envD c3cache1 db0 c3req1 60 101).actsOf = [] ∧
    (serverStep mymacC rootsC fatC envD c3cache1 db0 c3req1 60 101).sentOf = some c3r1 ∧
    (serverStep mymacC rootsC fatC envD cache0 db0 c3req1 60 100).sentOf = some c3r1 :=
  C3_retransmit mymacC rootsC fatC envD cache0 db0 c3req1 c3req1 60 60 100 101 60 60
    false false c3cache1 db0 c3r1 [] c3fr 60 (by decide) (by decide) (by decide)
    (by decide) (by decide) (by decide) rfl rfl rfl rfl (by decide)
theorem getC_eq_getElem (s : List Char) (j : Nat) (h : j < s.length) :
    getC s j = s[j] :=
  List.getD_eq_getElem s nulc h

theorem getC_of_ge (s : List Char) (j : Nat) (h : s.length ≤ j) : getC s j = nulc := by
  unfold getC
  exact List.getD_eq_default _ _ h

theorem getC_ne_nulc (s : List Char) (hnul : nulc ∉ s) (j : Nat) (h : j < s.length) :
    getC s j ≠ nulc := by
  rw [getC_eq_getElem s j h]
  intro he
  exact hnul (he ▸ List.getElem_mem h)

theorem lt_of_getC_ne_nulc (s : List Char) (j : Nat) (h : getC s j ≠ nulc) :
    j < s.length := by
  by_contra hge
  exact h (getC_of_ge s j (by omega))

theorem drop_getC_cons (s : List Char) (j : Nat) (h : j < s.length) :
    s.drop j = getC s j :: s.drop (j + 1) := by
  rw [getC_eq_getElem s j h]
  exact List.drop_eq_getElem_cons h

theorem skipspGo_drop (s : List Char) :
    ∀ (fuel j : Nat), s.length ≤ j + fuel →
      s.drop (skipspGo s j fuel) = (s.drop j).dropWhile (fun x => x == ' ') := by
  intro fuel
  induction fuel with
  | zero =>
    intro j h
    unfold skipspGo
    rw [List.drop_eq_nil_of_le (by omega)]
    rfl
  | succ n ih =>
    intro j h
    unfold skipspGo
    by_cases hc : getC s j = ' '
    · rw [if_pos hc]
      have hj : j < s.length := by
        by_contra hge
        rw [getC_of_ge s j (by omega)] at hc
        exact absurd hc (by decide)
      rw [ih (j + 1) (by omega), drop_getC_cons s j hj, List.dropWhile_cons, hc,
        if_pos (by decide)]
    · rw [if_neg hc]
      by_cases hj : j < s.length
      · rw [drop_getC_cons s j hj, List.dropWhile_cons, if_neg (by simp [hc])]
      · rw [List.drop_eq_nil_of_le (by omega)]
        rfl

theorem skipsp_drop (s : List Char) (j : Nat) :
    s.drop (skipsp s j) = (s.drop j).dropWhile (fun x => x == ' ') := by
  unfold skipsp
  exact skipspGo_drop s (s.length + 1 - j) j (by omega)

theorem scanDotGo_drop (s : List Char) (hnul : nulc ∉ s) :
    ∀ (fuel p : Nat), s.length ≤ p + fuel →
      s.drop (scanDotGo s p fuel) = (s.drop p).dropWhile (fun c => !(c == '.')) := by
  intro fuel
  induction fuel with
  | zero =>
    intro p h
    unfold scanDotGo
    rw [List.drop_eq_nil_of_le (by omega)]
    rfl
  | succ n ih =>
    intro p h
    unfold scanDotGo
    by_cases hc : getC s p = '.' ∨ getC s p = nulc
    · rw [if_pos hc]
      rcases hc with hdot | hnil
      · have hp : p < s.length := lt_of_getC_ne_nulc s p (by rw [hdot]; decide)
        rw [drop_getC_cons s p hp, List.dropWhile_cons, hdot, if_neg (by decide)]
      · have hp : s.length ≤ p := by
          by_contra hlt
          exact getC_ne_nulc s hnul p (by omega) hnil
        rw [List.drop_eq_nil_of_le hp]
        rfl
    · rw [if_neg hc]
      push_neg at hc
      have hp : p < s.length := lt_of_getC_ne_nulc s p hc.2
      rw [ih (p + 1) (by omega), drop_getC_cons s p hp, List.dropWhile_cons,
        if_pos (by simp [hc.1])]

theorem scanDot_drop (s : List Char) (hnul : nulc ∉ s) (p : Nat) :
    s.drop (scanDot s p) = (s.drop p).dropWhile (fun c => !(c == '.')) := by
  unfold scanDot
  exact scanDotGo_drop s hnul (s.length + 1 - p) p (by omega)

theorem setSeq_eq_append {α : Type} (vs : List α) :
    ∀ (l : List α) (i : Nat), i + vs.length ≤ l.length →
      setSeq l i vs = l.take i ++ vs ++ l.drop (i + vs.length) := by
  induction vs with
  | nil =>
    intro l i h
    show l = l.take i ++ [] ++ l.drop (i + 0)
    rw [List.append_nil, Nat.add_zero, List.take_append_drop]
  | cons v vs ih =>
    intro l i h
    simp only [List.length_cons] at h
    have hil : i < l.length := by omega
    have hT : (l.take i).length = i := by rw [List.length_take]; omega
    show setSeq (l.set i v) (i + 1) vs = _
    rw [ih (l.set i v) (i + 1) (by rw [List.length_set]; omega)]
    rw [List.set_eq_take_cons_drop v hil]
    have h1 : (l.take i ++ v :: l.drop (i + 1)).take (i + 1) = l.take i ++ [v] := by
      rw [List.take_append_eq_append_take, hT, List.take_of_length_le (by omega)]
      have h11 : i + 1 - i = 1 := by omega
      rw [h11]
      rfl
    have h2 : (l.take i ++ v :: l.drop (i + 1)).drop (i + 1 + vs.length) =
        l.drop (i + (vs.length + 1)) := by
      rw [List.drop_append_eq_append_drop, hT, List.drop_eq_nil_of_le (by omega)]
      have h21 : i + 1 + vs.length - i = vs.length + 1 := by omega
      rw [h21, List.nil_append, List.drop_succ_cons, List.drop_drop]
      congr 1
      omega
    rw [h1, h2]
    have h3 : i + (v :: vs).length = i + (vs.length + 1) := by
      simp
    rw [h3]
    simp [List.append_assoc]
theorem getC_of_drop_cons (s : List Char) (j : Nat) (c : Char) (r : List Char)
    (h : s.drop j = c :: r) : getC s j = c := by
  have hj : j < s.length := by
    by_contra hge
    rw [List.drop_eq_nil_of_le (by omega)] at h
    exact List.noConfusion h
  rw [drop_getC_cons s j hj] at h
  injection h with h1 h2

theorem drop_succ_of_drop_cons (s : List Char) (j : Nat) (c : Char) (r : List Char)
    (h : s.drop j = c :: r) : s.drop (j + 1) = r := by
  have h2 : s.drop (j + 1) = List.drop 1 (s.drop j) := by rw [List.drop_drop]
  rw [h2, h]
  rfl

theorem dropWhile_head_not {α : Type} (p : α → Bool) :
    ∀ (l : List α) (c : α) (r : List α), l.dropWhile p = c :: r → p c = false := by
  intro l
  induction l with
  | nil => intro c r h; exact List.noConfusion h
  | cons a as ih =>
    intro c r h
    rw [List.dropWhile_cons] at h
    by_cases hp : p a = true
    · rw [if_pos hp] at h
      exact ih c r h
    · rw [if_neg hp] at h
      injection h with h1 _
      rw [← h1]
      simpa using hp

theorem nameScan_length : ∀ (k : Nat) (t : List Char), (nameScan t k).length ≤ k := by
  intro k
  induction k with
  | zero => intro t; simp [nameScan]
  | succ n ih =>
    intro t
    cases t with
    | nil => simp [nameScan]
    | cons c rest =>
      by_cases hc : c = '.'
      · simp [nameScan, hc]
      · cases hdw : (c :: rest).dropWhile (fun x => x == ' ') with
        | nil => simp [nameScan, hc, hdw]
        | cons c2 rest2 =>
          simp only [nameScan, if_neg hc, hdw, List.length_cons]
          have := ih rest2
          omega

theorem f2fDotsGo_spec (s : List Char) :
    ∀ (fuel : Nat) (d : List Char) (i : Nat), 8 ≤ i + fuel →
      f2fDotsGo s d i fuel =
        (setSeq d i (((s.drop i).take (8 - i)).takeWhile (fun c => c == '.')),
         i + (((s.drop i).take (8 - i)).takeWhile (fun c => c == '.')).length) := by
  intro fuel
  induction fuel with
  | zero =>
    intro d i h
    have h0 : 8 - i = 0 := by omega
    unfold f2fDotsGo
    rw [h0]
    simp [setSeq]
  | succ n ih =>
    intro d i h
    unfold f2fDotsGo
    by_cases hi : i < 8
    · rw [if_pos hi]
      by_cases hd : getC s i = '.'
      · rw [if_pos hd]
        have hil : i < s.length := lt_of_getC_ne_nulc s i (by rw [hd]; decide)
        rw [ih (d.set i '.') (i + 1) (by omega)]
        have hdec : ((s.drop i).take (8 - i)).takeWhile (fun c => c == '.') =
            '.' :: (((s.drop (i + 1)).take (8 - (i + 1))).takeWhile (fun c => c == '.')) := by
          rw [drop_getC_cons s i hil, hd]
          have h81 : 8 - i = (8 - (i + 1)) + 1 := by omega
          rw [h81, List.take_succ_cons, List.takeWhile_cons, if_pos (by decide)]
        rw [hdec, Prod.mk.injEq]
        constructor
        · rfl
        · simp only [List.length_cons]
          omega
      · rw [if_neg hd]
        have hnil : ((s.drop i).take (8 - i)).takeWhile (fun c => c == '.') = [] := by
          by_cases hil : i < s.length
          · rw [drop_getC_cons s i hil]
            have h81 : 8 - i = (8 - (i + 1)) + 1 := by omega
            rw [h81, List.take_succ_cons, List.takeWhile_cons, if_neg (by simp [hd])]
          · rw [List.drop_eq_nil_of_le (by omega)]
            simp
        rw [hnil]
        simp [setSeq]
    · rw [if_neg hi]
      have h0 : 8 - i = 0 := by omega
      rw [h0]
      simp [setSeq]
theorem nameScan_nil (k : Nat) : nameScan ([] : List Char) k = [] := by
  cases k with
  | zero => simp [nameScan]
  | succ m => simp [nameScan]

theorem f2fNameGo_spec (s : List Char) (hnul : nulc ∉ s) :
    ∀ (fuel : Nat) (d : List Char) (i j : Nat), 8 ≤ i + fuel →
      f2fNameGo s d i j fuel =
        (setSeq d i (nameScan (s.drop j) (8 - i)),
         i + (nameScan (s.drop j) (8 - i)).length) := by
  intro fuel
  induction fuel with
  | zero =>
    intro d i j h
    have h0 : 8 - i = 0 := by omega
    unfold f2fNameGo
    rw [h0]
    simp [nameScan, setSeq]
  | succ n ih =>
    intro d i j h
    unfold f2fNameGo
    by_cases hi : i < 8
    · rw [if_pos hi]
      have hk : 8 - i = (8 - (i + 1)) + 1 := by omega
      by_cases hstop : getC s j = '.' ∨ getC s j = nulc
      · rw [if_pos hstop]
        have hnil : nameScan (s.drop j) (8 - i) = [] := by
          rcases hstop with hdot | hnl
          · have hjl : j < s.length := lt_of_getC_ne_nulc s j (by rw [hdot]; decide)
            rw [drop_getC_cons s j hjl, hdot, hk]
            simp [nameScan]
          · have hj : s.length ≤ j := by
              by_contra hlt
              exact getC_ne_nulc s hnul j (by omega) hnl
            rw [List.drop_eq_nil_of_le hj, hk]
            simp [nameScan]
        rw [hnil]
        simp [setSeq]
      · rw [if_neg hstop]
        simp only []
        push_neg at hstop
        have hjl : j < s.length := lt_of_getC_ne_nulc s j hstop.2
        cases hdw : (s.drop j).dropWhile (fun x => x == ' ') with
        | nil =>
          have hd2 : s.drop (skipsp s j) = [] := by rw [skipsp_drop]; exact hdw
          have hj2 : s.length ≤ skipsp s j := by
            by_contra hlt
            rw [drop_getC_cons s _ (by omega)] at hd2
            exact List.noConfusion hd2
          rw [getC_of_ge s _ hj2]
          rw [ih (d.set i (upchar nulc)) (i + 1) (skipsp s j + 1) (by omega)]
          have hd3 : s.drop (skipsp s j + 1) = [] := List.drop_eq_nil_of_le (by omega)
          rw [hd3, nameScan_nil]
          have hscan : nameScan (s.drop j) (8 - i) = [nulc] := by
            have hdw2 : (getC s j :: s.drop (j + 1)).dropWhile (fun x => x == ' ') = [] := by
              rw [← drop_getC_cons s j hjl]
              exact hdw
            rw [drop_getC_cons s j hjl, hk]
            simp only [nameScan, if_neg hstop.1, hdw2]
          rw [hscan]
          rw [Prod.mk.injEq]
          constructor
          · have hup : upchar nulc = nulc := by decide
            rw [hup]
            rfl
          · simp
        | cons c2 rest2 =>
          have hd2 : s.drop (skipsp s j) = c2 :: rest2 := by rw [skipsp_drop]; exact hdw
          have hg2 : getC s (skipsp s j) = c2 := getC_of_drop_cons s _ _ _ hd2
          have hdrop2 : s.drop (skipsp s j + 1) = rest2 := drop_succ_of_drop_cons s _ _ _ hd2
          rw [hg2]
          rw [ih (d.set i (upchar c2)) (i + 1) (skipsp s j + 1) (by omega)]
          rw [hdrop2]
          have hscan : nameScan (s.drop j) (8 - i) =
              upchar c2 :: nameScan rest2 (8 - (i + 1)) := by
            have hdw2 : (getC s j :: s.drop (j + 1)).dropWhile (fun x => x == ' ') =
                c2 :: rest2 := by
              rw [← drop_getC_cons s j hjl]
              exact hdw
            rw [drop_getC_cons s j hjl, hk]
            simp only [nameScan, if_neg hstop.1, hdw2]
          rw [hscan, Prod.mk.injEq]
          constructor
          · rfl
          · simp only [List.length_cons]
            omega
    · rw [if_neg hi]
      have h0 : 8 - i = 0 := by omega
      rw [h0]
      simp [nameScan, setSeq]

theorem f2fExtGo_spec (s : List Char) (hnul : nulc ∉ s) :
    ∀ (fuel p : Nat) (d : List Char) (j : Nat), 3 ≤ j + fuel →
      f2fExtGo s p d j fuel =
        setSeq d (8 + j)
          ((((s.drop (p + j)).take (3 - j)).takeWhile
            (fun c => !(c == '.') && !(c == ' '))).map upchar) := by
  intro fuel
  induction fuel with
  | zero =>
    intro p d j h
    have h0 : 3 - j = 0 := by omega
    unfold f2fExtGo
    rw [h0]
    simp [setSeq]
  | succ n ih =>
    intro p d j h
    unfold f2fExtGo
    by_cases hj : j < 3
    · rw [if_pos hj]
      have hk : 3 - j = (3 - (j + 1)) + 1 := by omega
      by_cases hstop : getC s (p + j) = '.' ∨ getC s (p + j) = nulc ∨ getC s (p + j) = ' '
      · rw [if_pos hstop]
        have hnil : (((s.drop (p + j)).take (3 - j)).takeWhile
            (fun c => !(c == '.') && !(c == ' '))).map upchar = [] := by
          by_cases hpl : p + j < s.length
          · rw [drop_getC_cons s _ hpl, hk, List.take_succ_cons, List.takeWhile_cons]
            rcases hstop with h1 | h1 | h1 <;> rw [h1]
            · simp
            · exact absurd h1 (getC_ne_nulc s hnul _ hpl)
            · simp
          · rw [List.drop_eq_nil_of_le (by omega)]
            simp
        rw [hnil]
        simp [setSeq]
      · rw [if_neg hstop]
        push_neg at hstop
        obtain ⟨hs1, hs2, hs3⟩ := hstop
        have hpl : p + j < s.length := lt_of_getC_ne_nulc s _ hs2
        rw [ih p (d.set (8 + j) (upchar (getC s (p + j)))) (j + 1) (by omega)]
        have hcons : (((s.drop (p + j)).take (3 - j)).takeWhile
              (fun c => !(c == '.') && !(c == ' '))).map upchar =
            upchar (getC s (p + j)) ::
              (((s.drop (p + (j + 1))).take (3 - (j + 1))).takeWhile
                (fun c => !(c == '.') && !(c == ' '))).map upchar := by
          have hd : s.drop (p + (j + 1)) = s.drop (p + j + 1) := rfl
          rw [hd, drop_getC_cons s _ hpl, hk, List.take_succ_cons, List.takeWhile_cons,
            if_pos (by simp [hs1, hs3])]
          rfl
        rw [hcons]
        rfl
    · rw [if_neg hj]
      have h0 : 3 - j = 0 := by omega
      rw [h0]
      simp [setSeq]
theorem fcb_assemble (D N E : List Char) (h8 : D.length + N.length ≤ 8)
    (h3 : E.length ≤ 3) :
    setSeq (setSeq (setSeq (List.replicate 11 ' ') 0 D) D.length N) 8 E =
      ((D ++ N) ++ List.replicate (8 - (D ++ N).length) ' ') ++
        (E ++ List.replicate (3 - E.length) ' ') := by
  have e1 : setSeq (List.replicate 11 ' ') 0 D =
      D ++ List.replicate (11 - D.length) ' ' := by
    rw [setSeq_eq_append D _ 0 (by rw [List.length_replicate]; omega)]
    rw [List.take_zero, List.nil_append, Nat.zero_add, List.drop_replicate]
  have e2 : setSeq (D ++ List.replicate (11 - D.length) ' ') D.length N =
      (D ++ N) ++ List.replicate (11 - D.length - N.length) ' ' := by
    rw [setSeq_eq_append N _ D.length
      (by rw [List.length_append, List.length_replicate]; omega)]
    rw [List.take_append_eq_append_take, List.take_length, Nat.sub_self, List.take_zero,
      List.append_nil]
    rw [List.drop_append_eq_append_drop, List.drop_eq_nil_of_le (by omega), List.nil_append]
    have hn : D.length + N.length - D.length = N.length := by omega
    rw [hn, List.drop_replicate]
  have e3 : setSeq ((D ++ N) ++ List.replicate (11 - D.length - N.length) ' ') 8 E =
      ((D ++ N) ++ List.replicate (8 - (D ++ N).length) ' ') ++
        (E ++ List.replicate (3 - E.length) ' ') := by
    rw [setSeq_eq_append E _ 8
      (by rw [List.length_append, List.length_append, List.length_replicate]; omega)]
    rw [List.take_append_eq_append_take, List.drop_append_eq_append_drop]
    rw [List.take_of_length_le (by rw [List.length_append]; omega)]
    rw [List.drop_eq_nil_of_le (by rw [List.length_append]; omega), List.nil_append]
    rw [List.take_replicate, List.drop_replicate]
    have hmin : min (8 - (D ++ N).length) (11 - D.length - N.length) =
        8 - (D ++ N).length := by
      rw [List.length_append]
      omega
    have harith : 11 - D.length - N.length - (8 + E.length - (D ++ N).length) =
        3 - E.length := by
      rw [List.length_append]
      omega
    rw [hmin, harith]
    simp [List.append_assoc]
  rw [e1, e2, e3]

set_option maxRecDepth 100000 in
/-- C6 (amended): for every NUL-free filename the FCB conversion fills 11
bytes with spaces, keeps the leading dots, copies up to 8 name characters
(a space run skipped before each copied character, upper-cased, stopping at
a dot or the end; a space run reaching the end copies one NUL, and the
character copied right after a space run may itself be a dot), then copies
up to 3 upper-cased extension characters after the FIRST dot at or after
the position obtained by advancing the source by the number of FCB cells
filled (fs.c `s += i`), stopping at a dot, space or the end.  The frozen
claim's description (extension after the LAST dot, spaces simply skipped)
is refuted by the counterexample theorem. -/
theorem C6_fcb_conversion (s : List Char) (hnul : nulc ∉ s) :
    filename2fcb s = fcbAmendedSpec s := by
  have hn8 : (fcbDotsA s).length ≤ 8 :=
    le_trans (List.takeWhile_sublist _).length_le (List.length_take_le 8 s)
  have hN8 : (nameScan (s.drop (fcbDotsA s).length) (8 - (fcbDotsA s).length)).length ≤
      8 - (fcbDotsA s).length := nameScan_length _ _
  have hE3 : ∀ r : List Char,
      (((r.take 3).takeWhile (fun c => !(c == '.') && !(c == ' '))).map upchar).length ≤ 3 := by
    intro r
    rw [List.length_map]
    exact le_trans (List.takeWhile_sublist _).length_le (List.length_take_le 3 r)
  have hr1 : f2fDots (List.replicate 11 ' ') s 0 =
      (setSeq (List.replicate 11 ' ') 0 (fcbDotsA s), (fcbDotsA s).length) := by
    unfold f2fDots
    rw [f2fDotsGo_spec s 8 (List.replicate 11 ' ') 0 (by omega)]
    simp [fcbDotsA]
  have hr2 : f2fName (setSeq (List.replicate 11 ' ') 0 (fcbDotsA s)) s
      (fcbDotsA s).length (fcbDotsA s).length =
      (setSeq (setSeq (List.replicate 11 ' ') 0 (fcbDotsA s)) (fcbDotsA s).length
        (nameScan (s.drop (fcbDotsA s).length) (8 - (fcbDotsA s).length)),
       (fcbDotsA s).length +
         (nameScan (s.drop (fcbDotsA s).length) (8 - (fcbDotsA s).length)).length) :=
    f2fNameGo_spec s hnul 8 _ _ _ (by omega)
  unfold filename2fcb
  simp only []
  rw [hr1]
  simp only []
  rw [hr2]
  simp only []
  have hP := scanDot_drop s hnul ((fcbDotsA s).length +
    (nameScan (s.drop (fcbDotsA s).length) (8 - (fcbDotsA s).length)).length)
  cases hu : (s.drop ((fcbDotsA s).length +
      (nameScan (s.drop (fcbDotsA s).length) (8 - (fcbDotsA s).length)).length)).dropWhile
      (fun c => !(c == '.')) with
  | nil =>
    rw [hu] at hP
    have hpge : s.length ≤ scanDot s ((fcbDotsA s).length +
        (nameScan (s.drop (fcbDotsA s).length) (8 - (fcbDotsA s).length)).length) := by
      by_contra hlt
      rw [drop_getC_cons s _ (by omega)] at hP
      exact List.noConfusion hP
    rw [if_pos (getC_of_ge s _ hpge)]
    unfold fcbAmendedSpec
    simp only []
    have hext : fcbExtA s = [] := by
      unfold fcbExtA extScanStart
      rw [hu]
    rw [hext]
    exact fcb_assemble (fcbDotsA s)
      (nameScan (s.drop (fcbDotsA s).length) (8 - (fcbDotsA s).length)) []
      (by omega) (by simp)
  | cons c r =>
    rw [hu] at hP
    have hcfalse : (!(c == '.')) = false := dropWhile_head_not _ _ c r hu
    have hcd : c = '.' := by simpa using hcfalse
    subst hcd
    have hgp : getC s (scanDot s ((fcbDotsA s).length +
        (nameScan (s.drop (fcbDotsA s).length) (8 - (fcbDotsA s).length)).length)) = '.' :=
      getC_of_drop_cons s _ _ _ hP
    rw [if_neg (by rw [hgp]; decide)]
    have hdr : s.drop (scanDot s ((fcbDotsA s).length +
        (nameScan (s.drop (fcbDotsA s).length) (8 - (fcbDotsA s).length)).length) + 1) = r :=
      drop_succ_of_drop_cons s _ _ _ hP
    have hext2 := f2fExtGo_spec s hnul 3 (scanDot s ((fcbDotsA s).length +
        (nameScan (s.drop (fcbDotsA s).length) (8 - (fcbDotsA s).length)).length) + 1)
      (setSeq (setSeq (List.replicate 11 ' ') 0 (fcbDotsA s)) (fcbDotsA s).length
        (nameScan (s.drop (fcbDotsA s).length) (8 - (fcbDotsA s).length))) 0 (by omega)
    simp only [Nat.add_zero, Nat.sub_zero] at hext2
    rw [hdr] at hext2
    unfold f2fExt
    rw [hext2]
    unfold fcbAmendedSpec
    simp only []
    have hext : fcbExtA s =
        ((r.take 3).takeWhile (fun c => !(c == '.') && !(c == ' '))).map upchar := by
      unfold fcbExtA extScanStart
      rw [hu]
    rw [hext]
    exact fcb_assemble (fcbDotsA s)
      (nameScan (s.drop (fcbDotsA s).length) (8 - (fcbDotsA s).length))
      (((r.take 3).takeWhile (fun c => !(c == '.') && !(c == ' '))).map upchar)
      (by omega) (hE3 r)

set_option maxRecDepth 100000 in
theorem C6_claim_counterexample :
    filename2fcb "a.b.c".toList ≠ fcbClaimSpec "a.b.c".toList ∧
    filename2fcb "a .b".toList ≠ fcbClaimSpec "a .b".toList := by
  decide

theorem C6_fcb_conversion_witness :
    nulc ∉ "a.b.c".toList ∧
    filename2fcb "a.b.c".toList = fcbAmendedSpec "a.b.c".toList :=
  ⟨by decide, C6_fcb_conversion ("a.b.c".toList) (by decide)⟩
